import Mathlib

/-!
Verification of the `primalstep` task-decomposition core.

We give a shallow embedding of `src/primalstep/core.py` (class
`TaskDecomposer`), `src/primalstep/utils/graph_helpers.py`
(`validate_dag`) and `src/primalstep/llm_integration/mock_clients.py`
(`MockLLMClient`), and prove the specified properties about it.

Python values flowing out of `json.loads` are modelled by the inductive
type `Json` (numbers are modelled as integers; no claim touches float
behaviour).  A `networkx.DiGraph` is modelled by insertion-ordered node
and edge lists; node attributes are the `description`/`instructions`
pair set by `add_node` (`none` for nodes created implicitly by
`add_edge`).  Exceptions are modelled by `Except` with an error kind
distinguishing `ValueError` from `RuntimeError` and other exception
classes.  Logging is a side effect in the source; the `logger.warning`
event stream, which the specification makes part of the contract, is
returned alongside the result.
-/

set_option maxRecDepth 40000

namespace PrimalStep

/-- A JSON value as produced by Python's `json.loads`: `None`, booleans,
numbers (modelled as integers), strings, lists and dicts (insertion-ordered
association lists; `json.loads` keeps object keys unique). -/
inductive Json where
  | null : Json
  | bool (b : Bool) : Json
  | num (n : Int) : Json
  | str (s : String) : Json
  | arr (items : List Json) : Json
  | obj (fields : List (String × Json)) : Json
  deriving Repr

mutual

/-- Structural equality of `Json` values, modelling Python `==` on the
values `json.loads` can produce (every id and key in the claims is a
string, so Python's cross-type numeric equality is immaterial). -/
def Json.beq : Json → Json → Bool
  | .null, .null => true
  | .bool a, .bool b => a == b
  | .num a, .num b => a == b
  | .str a, .str b => a == b
  | .arr xs, .arr ys => Json.beqList xs ys
  | .obj xs, .obj ys => Json.beqFields xs ys
  | _, _ => false

/-- Pairwise equality of JSON arrays. -/
def Json.beqList : List Json → List Json → Bool
  | [], [] => true
  | x :: xs, y :: ys => Json.beq x y && Json.beqList xs ys
  | _, _ => false

/-- Pairwise equality of JSON object field lists. -/
def Json.beqFields : List (String × Json) → List (String × Json) → Bool
  | [], [] => true
  | (k1, v1) :: xs, (k2, v2) :: ys => k1 == k2 && Json.beq v1 v2 && Json.beqFields xs ys
  | _, _ => false

end

theorem Json.beq_iff : ∀ (a b : Json), Json.beq a b = true ↔ a = b := by
  refine Json.beq.induct
    (fun a b => Json.beq a b = true ↔ a = b)
    (fun xs ys => Json.beqFields xs ys = true ↔ xs = ys)
    (fun xs ys => Json.beqList xs ys = true ↔ xs = ys)
    ?_ ?_ ?_ ?_ ?_ ?_ ?_ ?_ ?_ ?_ ?_ ?_ ?_
  all_goals intros
  all_goals try (solve | simp_all [Json.beq, Json.beqList, Json.beqFields])
  all_goals
    first
      | (rename_i t x h1 h2 h3 h4 h5 h6
         cases t <;> cases x <;>
           first
             | (exfalso; solve_by_elim)
             | simp [Json.beq])
      | (rename_i t x h1 h2
         cases t <;> cases x <;>
           first
             | (exfalso; solve_by_elim)
             | simp [Json.beqList, Json.beqFields])

instance : DecidableEq Json := fun a b =>
  decidable_of_iff (Json.beq a b = true) (Json.beq_iff a b)

/-- Python truthiness test (`not x` in the source): `None`, `False`, `0`,
the empty string, the empty list and the empty dict are falsy. -/
def Json.falsy : Json → Bool
  | .null => true
  | .bool b => !b
  | .num n => n == 0
  | .str s => s == ""
  | .arr items => items.isEmpty
  | .obj fields => fields.isEmpty

instance : BEq Json := ⟨Json.beq⟩

instance : LawfulBEq Json where
  eq_of_beq h := (Json.beq_iff _ _).mp h
  rfl := (Json.beq_iff _ _).mpr rfl

mutual

/-- Python `repr` of a `Json` value, as produced by f-string interpolation
of containers (`{step}`, `{cycle}`); mirrors `repr` on the values occurring
in this program (single-quoted strings, `None`/`True`/`False`, decimal
integers, `[...]` lists and `\x7b...\x7d` dicts). -/
def Json.pyRepr : Json → String
  | .null => "None"
  | .bool true => "True"
  | .bool false => "False"
  | .num n => toString n
  | .str s => "'" ++ s ++ "'"
  | .arr items => "[" ++ Json.pyReprList items ++ "]"
  | .obj fields => "\x7b" ++ Json.pyReprFields fields ++ "\x7d"

/-- Comma-joined `repr`s of the items of a list. -/
def Json.pyReprList : List Json → String
  | [] => ""
  | [x] => Json.pyRepr x
  | x :: xs => Json.pyRepr x ++ ", " ++ Json.pyReprList xs

/-- Comma-joined `'key': repr` entries of a dict. -/
def Json.pyReprFields : List (String × Json) → String
  | [] => ""
  | [(k, v)] => "'" ++ k ++ "': " ++ Json.pyRepr v
  | (k, v) :: xs => "'" ++ k ++ "': " ++ Json.pyRepr v ++ ", " ++ Json.pyReprFields xs

end

/-- Python `str()` as used by f-string interpolation: strings are inserted
verbatim, everything else prints as its `repr`. -/
def Json.pyStr : Json → String
  | .str s => s
  | j => j.pyRepr

/-- The exception classes the decomposer's `try/except` blocks distinguish. -/
inductive ExnKind where
  | valueError
  | runtimeError
  | attributeError
  | typeError
  deriving DecidableEq, Repr

/-- A raised Python exception: its class together with `str(e)`. -/
structure PyExn where
  kind : ExnKind
  msg : String
  deriving DecidableEq, Repr

/-- A `networkx.DiGraph`: insertion-ordered nodes with their attribute
data (`none` when the node was created without attributes) and
insertion-ordered edges, without parallel edges. The only node attributes
this program sets are the `description`/`instructions` pair. -/
structure DiGraph where
  nodes : List (Json × Option (Json × Json))
  edges : List (Json × Json)
  deriving DecidableEq, Repr

def DiGraph.empty : DiGraph := ⟨[], []⟩

def DiGraph.hasNode (g : DiGraph) (v : Json) : Bool :=
  g.nodes.any (fun p => p.1 == v)

/-- Models `graph.add_node(v, description=d, instructions=i)`: inserts the node,
or updates the attributes of an existing node in place. -/
def DiGraph.add_node (g : DiGraph) (v d i : Json) : DiGraph :=
  if g.hasNode v then
    { g with nodes := g.nodes.map (fun p => if p.1 == v then (p.1, some (d, i)) else p) }
  else
    { g with nodes := g.nodes ++ [(v, some (d, i))] }

/-- Nodes mentioned by `add_edge` are created with no attributes. -/
def DiGraph.ensureNode (g : DiGraph) (v : Json) : DiGraph :=
  if g.hasNode v then g else { g with nodes := g.nodes ++ [(v, none)] }

/-- Models `graph.add_edge(u, v)` on a `DiGraph`: creates missing endpoints and
records the edge (re-adding an existing edge is a no-op). -/
def DiGraph.add_edge (g : DiGraph) (u v : Json) : DiGraph :=
  let g' := (g.ensureNode u).ensureNode v
  if (u, v) ∈ g'.edges then g' else { g' with edges := g'.edges ++ [(u, v)] }

def DiGraph.succs (g : DiGraph) (u : Json) : List Json :=
  (g.edges.filter (fun e => e.1 == u)).map (fun e => e.2)

/-- Holds when `g.reachableWithin fuel u v`: there is a walk of length between 1 and
`fuel` from `u` to `v` along the edges of `g`. -/
def DiGraph.reachableWithin (g : DiGraph) : Nat → Json → Json → Bool
  | 0, _, _ => false
  | fuel + 1, u, v => (g.succs u).any (fun w => w == v || g.reachableWithin fuel w v)

/-- Extracts an explicit walk of length at most `fuel` from `u` to `v`. -/
def DiGraph.findPath (g : DiGraph) : Nat → Json → Json → Option (List (Json × Json))
  | 0, _, _ => none
  | fuel + 1, u, v =>
    (g.succs u).findSome? (fun w =>
      if w == v then some [(u, w)]
      else (g.findPath fuel w v).map (fun p => (u, w) :: p))

/-- A cycle, if any, closes up at the source of one of the edges within
`|edges|` hops. -/
def DiGraph.cycleBound (g : DiGraph) : Nat := g.edges.length

/-- Model of `networkx.is_directed_acyclic_graph`, from its documented
behaviour: decides whether the directed graph has no cycle. -/
def nx_is_directed_acyclic_graph (g : DiGraph) : Bool :=
  !(g.edges.any (fun e => g.reachableWithin g.cycleBound e.1 e.1))

/-- Model of `networkx.find_cycle`, from its documented behaviour: returns
the edge list of some cycle of the graph, or raises `NetworkXNoCycle`
(here: `none`) when there is none. -/
def nx_find_cycle (g : DiGraph) : Option (List (Json × Json)) :=
  g.edges.findSome? (fun e => g.findPath g.cycleBound e.1 e.1)

/-- Python `repr` of a list of networkx edge 2-tuples, as interpolated into
the cycle error message. -/
def pyReprEdgeList (c : List (Json × Json)) : String :=
  "[" ++ String.intercalate ", "
    (c.map (fun e => "(" ++ e.1.pyRepr ++ ", " ++ e.2.pyRepr ++ ")")) ++ "]"

/-- Translation of `primalstep.utils.graph_helpers.validate_dag`.  Note the
control flow of the source: the `ValueError` raised inside the `try` block
is itself caught by the trailing `except Exception` clause, so the message
that actually surfaces is prefixed with `图验证失败: `; a
`NetworkXNoCycle` escape from `find_cycle` would be caught and turned into
`return True`. -/
def validate_dag (graph : DiGraph) : Except PyExn Bool :=
  if !(nx_is_directed_acyclic_graph graph) then
    match nx_find_cycle graph with
    | some cycle =>
        .error ⟨.valueError, "图验证失败: " ++ ("检测到循环依赖: " ++ pyReprEdgeList cycle)⟩
    | none => .ok true
  else .ok true

/-- Walk predicate `chainFrom u c v`: the edge list `c` is a contiguous walk from `u`
to `v`. -/
def chainFrom (u : Json) : List (Json × Json) → Json → Prop
  | [], v => u = v
  | e :: rest, v => u = e.1 ∧ chainFrom e.2 rest v

/-- Cycle predicate `IsCycleIn edges c`: `c` is a nonempty closed contiguous walk whose
edges are all drawn from `edges` — an ordered edge sequence forming a
loop. -/
def IsCycleIn (edges : List (Json × Json)) (c : List (Json × Json)) : Prop :=
  match c with
  | [] => False
  | e :: _ => chainFrom e.1 c e.1 ∧ ∀ x ∈ c, x ∈ edges

/-- A concrete cycle of the graph `g`. -/
def DiGraph.IsCycle (g : DiGraph) (c : List (Json × Json)) : Prop :=
  IsCycleIn g.edges c

/-- The graph has no cycle of any length. -/
def DiGraph.Acyclic (g : DiGraph) : Prop := ∀ c, ¬ g.IsCycle c

def chainFromB (u : Json) : List (Json × Json) → Json → Bool
  | [], v => u == v
  | e :: rest, v => u == e.1 && chainFromB e.2 rest v

theorem chainFromB_iff (u : Json) (c : List (Json × Json)) (v : Json) :
    chainFromB u c v = true ↔ chainFrom u c v := by
  induction c generalizing u with
  | nil => simp [chainFromB, chainFrom]
  | cons e rest ih => simp [chainFromB, chainFrom, ih]

instance (u : Json) (c : List (Json × Json)) (v : Json) :
    Decidable (chainFrom u c v) :=
  decidable_of_iff _ (chainFromB_iff u c v)

instance (edges c : List (Json × Json)) : Decidable (IsCycleIn edges c) :=
  match c with
  | [] => isFalse (fun h => h)
  | e :: rest =>
    inferInstanceAs (Decidable (chainFrom e.1 (e :: rest) e.1 ∧ ∀ x ∈ e :: rest, x ∈ edges))

instance (g : DiGraph) (c : List (Json × Json)) : Decidable (g.IsCycle c) :=
  inferInstanceAs (Decidable (IsCycleIn g.edges c))

theorem mem_succs {g : DiGraph} {u w : Json} : w ∈ g.succs u ↔ (u, w) ∈ g.edges := by
  simp only [DiGraph.succs, List.mem_map, List.mem_filter, beq_iff_eq]
  constructor
  · rintro ⟨⟨a, b⟩, ⟨hm, h1⟩, h2⟩
    obtain rfl : a = u := h1
    obtain rfl : b = w := h2
    exact hm
  · intro hm
    exact ⟨(u, w), ⟨hm, rfl⟩, rfl⟩

theorem findSome?_isSome_of_mem {α β : Type} {f : α → Option β} {l : List α} {a : α}
    (ha : a ∈ l) (h : (f a).isSome) : (l.findSome? f).isSome := by
  rw [List.findSome?_isSome_iff]
  exact ⟨a, ha, h⟩

theorem findPath_sound {g : DiGraph} :
    ∀ (fuel : Nat) (u v : Json) (c : List (Json × Json)),
      g.findPath fuel u v = some c →
      chainFrom u c v ∧ c ≠ [] ∧ ∀ e ∈ c, e ∈ g.edges := by
  intro fuel
  induction fuel with
  | zero => intro u v c h; simp [DiGraph.findPath] at h
  | succ n ih =>
    intro u v c h
    simp only [DiGraph.findPath] at h
    obtain ⟨w, hw, hfw⟩ := List.exists_of_findSome?_eq_some h
    by_cases hwv : w = v
    · simp only [beq_iff_eq, hwv, if_true, Option.some.injEq] at hfw
      subst hfw
      subst hwv
      refine ⟨by simp [chainFrom], by simp, ?_⟩
      intro e he
      simp at he
      subst he
      exact mem_succs.mp hw
    · simp only [beq_iff_eq, hwv, if_false, Option.map_eq_some'] at hfw
      obtain ⟨p, hp, rfl⟩ := hfw
      obtain ⟨hchain, hne, hsub⟩ := ih w v p hp
      refine ⟨by simp [chainFrom]; exact hchain, by simp, ?_⟩
      intro e he
      rcases List.mem_cons.mp he with rfl | hmem
      · exact mem_succs.mp hw
      · exact hsub e hmem

theorem findPath_complete {g : DiGraph} :
    ∀ (fuel : Nat) (u v : Json),
      g.reachableWithin fuel u v = true → (g.findPath fuel u v).isSome := by
  intro fuel
  induction fuel with
  | zero => intro u v h; simp [DiGraph.reachableWithin] at h
  | succ n ih =>
    intro u v h
    simp only [DiGraph.reachableWithin, List.any_eq_true] at h
    obtain ⟨w, hw, hor⟩ := h
    rw [Bool.or_eq_true] at hor
    simp only [DiGraph.findPath]
    apply findSome?_isSome_of_mem hw
    by_cases hwv : w = v
    · simp [hwv]
    · simp only [beq_iff_eq, hwv, if_false, Option.isSome_map']
      rcases hor with hwv' | hr
      · exact absurd (by simpa using hwv') hwv
      · exact ih w v hr

theorem chain_reachable {g : DiGraph} :
    ∀ (c : List (Json × Json)) (u v : Json) (fuel : Nat),
      chainFrom u c v → c ≠ [] → (∀ e ∈ c, e ∈ g.edges) → c.length ≤ fuel →
      g.reachableWithin fuel u v = true := by
  intro c
  induction c with
  | nil => intro u v fuel _ hne; exact absurd rfl hne
  | cons e rest ih =>
    intro u v fuel hchain hne hsub hlen
    simp only [chainFrom] at hchain
    obtain ⟨rfl, hrest⟩ := hchain
    cases fuel with
    | zero => simp at hlen
    | succ n =>
      simp only [DiGraph.reachableWithin, List.any_eq_true]
      refine ⟨e.2, mem_succs.mpr (by simpa using hsub e (by simp)), ?_⟩
      rw [Bool.or_eq_true]
      cases rest with
      | nil =>
        left
        have hv : e.2 = v := hrest
        simp [hv]
      | cons e2 rest2 =>
        right
        refine ih e.2 v n hrest (by simp) (fun x hx => hsub x (by simp [hx])) ?_
        simp at hlen ⊢
        omega

theorem length_le_of_nodup_subset {α : Type} {l₁ l₂ : List α}
    (h : l₁.Nodup) (hs : l₁ ⊆ l₂) : l₁.length ≤ l₂.length :=
  (List.subperm_of_subset h hs).length_le

theorem split_of_not_nodup {α : Type} :
    ∀ {l : List α}, ¬ l.Nodup → ∃ (a : α) (l₁ l₂ l₃ : List α),
      l = l₁ ++ (a :: (l₂ ++ (a :: l₃))) := by
  intro l
  induction l with
  | nil => intro h; exact absurd List.nodup_nil h
  | cons x xs ih =>
    intro h
    by_cases hx : x ∈ xs
    · obtain ⟨s, t, rfl⟩ := List.append_of_mem hx
      exact ⟨x, [], s, t, by simp⟩
    · have hxs : ¬ xs.Nodup := by
        intro hnd
        exact h (List.nodup_cons.mpr ⟨hx, hnd⟩)
      obtain ⟨a, l₁, l₂, l₃, rfl⟩ := ih hxs
      exact ⟨a, x :: l₁, l₂, l₃, by simp⟩

theorem chainFrom_append {v : Json} :
    ∀ (xs : List (Json × Json)) (u : Json) (ys : List (Json × Json)),
      chainFrom u (xs ++ ys) v ↔ ∃ w, chainFrom u xs w ∧ chainFrom w ys v := by
  intro xs
  induction xs with
  | nil =>
    intro u ys
    simp [chainFrom]
  | cons e rest ih =>
    intro u ys
    rw [List.cons_append]
    simp only [chainFrom]
    rw [ih e.2 ys]
    constructor
    · rintro ⟨h1, w, h2, h3⟩
      exact ⟨w, ⟨h1, h2⟩, h3⟩
    · rintro ⟨w, ⟨h1, h2⟩, h3⟩
      exact ⟨h1, w, h2, h3⟩

theorem cycle_shorten (edges : List (Json × Json)) :
    ∀ (n : Nat) (c : List (Json × Json)) (u : Json),
      c.length ≤ n → c ≠ [] → chainFrom u c u → (∀ e ∈ c, e ∈ edges) →
      ∃ c' u', c' ≠ [] ∧ chainFrom u' c' u' ∧ (∀ e ∈ c', e ∈ edges) ∧
        c'.length ≤ edges.length := by
  intro n
  induction n with
  | zero =>
    intro c u hlen hne _ _
    cases c with
    | nil => exact absurd rfl hne
    | cons e rest => simp at hlen
  | succ n ih =>
    intro c u hlen hne hchain hsub
    by_cases hnd : c.Nodup
    · exact ⟨c, u, hne, hchain, hsub,
        length_le_of_nodup_subset hnd (fun e he => hsub e he)⟩
    · obtain ⟨a, l₁, l₂, l₃, rfl⟩ := split_of_not_nodup hnd
      rw [chainFrom_append] at hchain
      obtain ⟨w1, hc1, hc2⟩ := hchain
      simp only [chainFrom] at hc2
      obtain ⟨rfl, hc3⟩ := hc2
      rw [chainFrom_append] at hc3
      obtain ⟨w2, _, hc5⟩ := hc3
      simp only [chainFrom] at hc5
      obtain ⟨_, hc6⟩ := hc5
      refine ih (l₁ ++ (a :: l₃)) u ?_ (by simp) ?_ ?_
      · simp at hlen ⊢
        omega
      · rw [chainFrom_append]
        exact ⟨a.1, hc1, by simp only [chainFrom]; exact ⟨by trivial, hc6⟩⟩
      · intro e he
        apply hsub e
        simp only [List.mem_append, List.mem_cons] at he ⊢
        tauto

theorem isCycle_of_findPath {g : DiGraph} {fuel : Nat} {u : Json}
    {c : List (Json × Json)} (h : g.findPath fuel u u = some c) : g.IsCycle c := by
  obtain ⟨hchain, hne, hsub⟩ := findPath_sound fuel u u c h
  unfold DiGraph.IsCycle IsCycleIn
  cases c with
  | nil => exact hne rfl
  | cons e0 rest =>
    have h1 : u = e0.1 := by
      simp only [chainFrom] at hchain
      exact hchain.1
    rw [h1] at hchain
    exact ⟨hchain, hsub⟩

theorem cyclic_iff (g : DiGraph) :
    (g.edges.any (fun e => g.reachableWithin g.cycleBound e.1 e.1)) = true ↔
      ∃ c, g.IsCycle c := by
  constructor
  · rw [List.any_eq_true]
    rintro ⟨e, _, hr⟩
    obtain ⟨c, hc⟩ := Option.isSome_iff_exists.mp (findPath_complete _ _ _ hr)
    exact ⟨c, isCycle_of_findPath hc⟩
  · rintro ⟨c, hc⟩
    unfold DiGraph.IsCycle IsCycleIn at hc
    cases c with
    | nil => exact hc.elim
    | cons e0 rest =>
      obtain ⟨hchain, hsub⟩ := hc
      obtain ⟨c', u', hne', hchain', hsub', hlen'⟩ :=
        cycle_shorten g.edges (e0 :: rest).length (e0 :: rest) e0.1 le_rfl
          (by simp) hchain hsub
      rw [List.any_eq_true]
      cases c' with
      | nil => exact absurd rfl hne'
      | cons f rest' =>
        have hf1 : u' = f.1 := by
          simp only [chainFrom] at hchain'
          exact hchain'.1
        rw [hf1] at hchain'
        exact ⟨f, hsub' f (by simp),
          chain_reachable (f :: rest') f.1 f.1 g.cycleBound hchain' (by simp)
            hsub' hlen'⟩

theorem not_acyclic_find_cycle (g : DiGraph) (h : ¬ g.Acyclic) :
    ∃ c, nx_find_cycle g = some c ∧ g.IsCycle c := by
  have hex : ∃ c, g.IsCycle c := by
    by_contra hne
    push_neg at hne
    exact h hne
  have hany := (cyclic_iff g).mpr hex
  rw [List.any_eq_true] at hany
  obtain ⟨e, he, hr⟩ := hany
  have hsome : (nx_find_cycle g).isSome := by
    unfold nx_find_cycle
    exact findSome?_isSome_of_mem he (findPath_complete _ _ _ hr)
  obtain ⟨c, hc⟩ := Option.isSome_iff_exists.mp hsome
  refine ⟨c, hc, ?_⟩
  obtain ⟨e', _, hfp⟩ := List.exists_of_findSome?_eq_some hc
  exact isCycle_of_findPath hfp

/-- The part of the prompt template of `TaskDecomposer._build_llm_prompt`
before the interpolated goal (the f-string braces `\x7b\x7b`/`\x7d\x7d`
render as literal braces). -/
def promptPart1 : String :=
  "\n你是一个高级任务分解助手。你的任务是将一个高层级的用户目标分解成一系列清晰、可执行的原子步骤。\n每个步骤都必须有一个唯一的ID，一个描述，以及一个可选的依赖步骤列表和可选的机器指令列表。\n请确保所有步骤形成一个有向无环图（DAG），即没有循环依赖。\n\n输出必须严格遵循以下JSON格式：\n\x7b\n  \"steps\": [\n    \x7b\n      \"id\": \"string\", // 唯一的步骤标识符，例如 \"step1\", \"task_setup\", \"data_processing\"\n      \"description\": \"string\", // 对该步骤的简短描述，例如 \"初始化项目\", \"收集用户输入\"\n      \"dependencies\": [\"string\"], // 可选，该步骤依赖的其他步骤的ID列表。如果无依赖，则为空列表。\n      \"instructions\": [\"string\"] // 可选，该步骤的详细机器可执行指令列表，例如命令行命令、代码片段等。\n    \x7d\n  ]\n\x7d\n\n请注意以下几点：\n1.  `id` 必须是字符串，且在所有步骤中唯一。\n2.  `description` 必须是字符串，简洁明了。\n3.  `dependencies` 必须是一个字符串列表，其中每个字符串都是其他步骤的 `id`。如果一个步骤没有依赖，`dependencies` 字段应为空列表 `[]`。\n4.  `instructions` 必须是一个字符串列表，包含该步骤的具体执行指令。如果无指令，则为空列表 `[]`。\n5.  确保所有 `dependencies` 中引用的 `id` 都存在于 `steps` 列表中。\n6.  分解的粒度应适中，每个步骤应是相对独立的、可完成的单元。\n7.  不要包含任何额外的文本或解释，只返回纯JSON。\n\n用户目标: \""

/-- The part of the prompt template after the interpolated goal. -/
def promptPart2 : String :=
  "\"\n\n请开始分解任务并生成JSON。\n"

/-- Translation of `TaskDecomposer._build_llm_prompt`: the fixed template
with the goal embedded verbatim. -/
def _build_llm_prompt (goal : String) : String :=
  promptPart1 ++ goal ++ promptPart2

/-- Raw text returned by an LLM client, as `json.loads` sees it: either a
string that parses as JSON (identified with its parse result, since
`json.loads` inverts `json.dumps`) or one that does not parse. -/
inductive RawText where
  | jsonOf (j : Json)
  | invalid (msg : String)
  deriving DecidableEq, Repr

/-- Python `json.loads` on this abstraction: the parsed value or the
`JSONDecodeError` message. -/
def json_loads : RawText → Except String Json
  | .jsonOf j => .ok j
  | .invalid msg => .error msg

/-- Python `json.dumps`. -/
def json_dumps (j : Json) : RawText := .jsonOf j

/-- Python `step.get(key, default)`: dict lookup with a default; calling
`.get` on a non-dict raises `AttributeError`. -/
def jget (j : Json) (key : String) (dflt : Json) : Except PyExn Json :=
  match j with
  | .obj fields =>
    match fields.lookup key with
    | some v => .ok v
    | none => .ok dflt
  | _ => .error ⟨.attributeError, "object has no attribute get"⟩

/-- One entry of the step-detail map: the dict
`\x7b"description": ..., "instructions": ..., "dependencies": ...\x7d`. -/
structure StepDetail where
  description : Json
  instructions : Json
  dependencies : Json
  deriving DecidableEq, Repr

/-- The step-detail map `steps_details`: a Python dict keyed by step id,
in insertion order. -/
abbrev Details := List (Json × StepDetail)

/-- Python `d[k] = v` on an insertion-ordered dict: updates an existing
key in place, otherwise appends. -/
def dictInsert (m : Details) (k : Json) (v : StepDetail) : Details :=
  if m.any (fun p => p.1 == k) then
    m.map (fun p => if p.1 == k then (p.1, v) else p)
  else m ++ [(k, v)]

/-- Python `k in d`. -/
def dictHasKey (m : Details) (k : Json) : Bool := m.any (fun p => p.1 == k)

/-- Python `d[k]` as a partial lookup. -/
def dictLookup (m : Details) (k : Json) : Option StepDetail :=
  (m.find? (fun p => p.1 == k)).map (fun p => p.2)

/-- Python `for x in y`: lists yield their items, strings their characters,
dicts their keys; any other value raises `TypeError`. -/
def pyIter : Json → Except PyExn (List Json)
  | .arr items => .ok items
  | .str s => .ok (s.toList.map (fun c => .str (String.mk [c])))
  | .obj fields => .ok (fields.map (fun p => .str p.1))
  | _ => .error ⟨.typeError, "object is not iterable"⟩

/-- The `logger.warning` text for a dependency id unknown at the time its
edge is created. -/
def unknownDepWarning (stepId depId : Json) : String :=
  "步骤 '" ++ stepId.pyStr ++ "' 依赖于不存在的步骤 '" ++ depId.pyStr ++ "'。"

/-- The `ValueError` message for a step whose `id` or `description` is
missing or falsy. -/
def missingFieldError (step : Json) : PyExn :=
  ⟨.valueError, "步骤数据缺少'id'或'description': " ++ step.pyStr⟩

/-- The dependency loop of one step: adds the edge `(dep_id, step_id)` for
each dependency in order, first appending a warning when the dependency is
not yet a key of the detail map. -/
def depFold (dm : Details) (step_id : Json) (deps : List Json)
    (g : DiGraph) (ws : List String) : DiGraph × List String :=
  deps.foldl
    (fun (acc : DiGraph × List String) dep_id =>
      let ws' := if dictHasKey dm dep_id then acc.2
                 else acc.2 ++ [unknownDepWarning step_id dep_id]
      (acc.1.add_edge dep_id step_id, ws'))
    (g, ws)

/-- One iteration of the step loop of `TaskDecomposer.decompose_task`:
reads the step fields with their defaults, validates `id`/`description`,
inserts the node and its detail entry, then adds one edge per dependency,
warning when the dependency is not yet a key of the detail map.  The
second component carries the `logger.warning` stream. -/
def processStep (graph : DiGraph) (details : Details) (warnings : List String)
    (step : Json) : Except PyExn (DiGraph × Details) × List String :=
  match jget step "id" .null with
  | .error e => (.error e, warnings)
  | .ok step_id =>
  match jget step "description" .null with
  | .error e => (.error e, warnings)
  | .ok description =>
  match jget step "dependencies" (.arr []) with
  | .error e => (.error e, warnings)
  | .ok dependencies =>
  match jget step "instructions" (.arr []) with
  | .error e => (.error e, warnings)
  | .ok instructions =>
  if step_id.falsy || description.falsy then
    (.error (missingFieldError step), warnings)
  else
    let graph1 := graph.add_node step_id description instructions
    let details1 := dictInsert details step_id ⟨description, instructions, dependencies⟩
    match pyIter dependencies with
    | .error e => (.error e, warnings)
    | .ok deps =>
      let out := depFold details1 step_id deps graph1 warnings
      (.ok (out.1, details1), out.2)

/-- The step loop of `TaskDecomposer.decompose_task` over all steps. -/
def processSteps : List Json → DiGraph → Details → List String →
    Except PyExn (DiGraph × Details) × List String
  | [], graph, details, warnings => (.ok (graph, details), warnings)
  | step :: rest, graph, details, warnings =>
    match processStep graph details warnings step with
    | (.error e, ws) => (.error e, ws)
    | (.ok (g, d), ws) => processSteps rest g d ws

/-- An implementation of `BaseLLMClient.generate`: raw text, or a raised
exception. -/
abbrev GenerateFn := String → Except PyExn RawText

/-- The body of the `try` block of `TaskDecomposer.decompose_task`: build
the prompt, call the client, parse the JSON, check the schema, run the
step loop and validate acyclicity. -/
def decompose_body (generate : GenerateFn) (goal_string : String) :
    Except PyExn (DiGraph × Details) × List String :=
  match generate (_build_llm_prompt goal_string) with
  | .error e => (.error e, [])
  | .ok llm_response_str =>
  match json_loads llm_response_str with
  | .error e => (.error ⟨.valueError, "LLM返回了无效的JSON格式: " ++ e⟩, [])
  | .ok llm_response_data =>
  match llm_response_data with
  | .obj fields =>
    match fields.lookup "steps" with
    | none => (.error ⟨.valueError, "LLM响应格式不符合预期，缺少'steps'键。"⟩, [])
    | some steps_data =>
      match steps_data with
      | .arr steps =>
        match processSteps steps DiGraph.empty [] [] with
        | (.error e, ws) => (.error e, ws)
        | (.ok (graph, details), ws) =>
          match validate_dag graph with
          | .error e => (.error e, ws)
          | .ok _ => (.ok (graph, details), ws)
      | _ => (.error ⟨.valueError, "LLM响应中的'steps'不是列表。"⟩, [])
  | _ => (.error ⟨.valueError, "LLM响应格式不符合预期，缺少'steps'键。"⟩, [])

/-- The `except` clauses of `decompose_task`: a `ValueError` is re-raised
unchanged, any other exception is wrapped into
`RuntimeError("任务分解失败: " + str(e))`. -/
def wrapExn (e : PyExn) : PyExn :=
  if e.kind = .valueError then e else ⟨.runtimeError, "任务分解失败: " ++ e.msg⟩

/-- Translation of `TaskDecomposer.decompose_task`.  The first component
is the returned `(graph, steps_details)` pair or the raised exception;
the second is the `logger.warning` stream. -/
def decompose_task (generate : GenerateFn) (goal_string : String) :
    Except PyExn (DiGraph × Details) × List String :=
  match decompose_body generate goal_string with
  | (.error e, ws) => (.error (wrapExn e), ws)
  | (.ok r, ws) => (.ok r, ws)

/-- Says whether the character list `needle` is an initial segment of
`hay` (helper for Python substring containment). -/
def charsStart : List Char → List Char → Bool
  | [], _ => true
  | _ :: _, [] => false
  | a :: as, b :: bs => a == b && charsStart as bs

/-- Says whether `needle` occurs contiguously inside `hay`. -/
def charsIn (needle : List Char) : List Char → Bool
  | [] => needle.isEmpty
  | c :: rest => charsStart needle (c :: rest) || charsIn needle rest

/-- Python `needle in hay` on strings. -/
def pyInStr (needle hay : String) : Bool := charsIn needle.toList hay.toList

/-- Mock response of `MockLLMClient.generate` for a prompt mentioning
`分解一个简单的任务`. -/
def mockSimpleResponse : Json :=
  .obj [("steps", .arr [
    .obj [("id", .str "step1"), ("description", .str "第一步"),
          ("dependencies", .arr [])],
    .obj [("id", .str "step2"), ("description", .str "第二步"),
          ("dependencies", .arr [.str "step1"])]])]

/-- Mock response for a prompt mentioning `循环依赖`. -/
def mockCycleResponse : Json :=
  .obj [("steps", .arr [
    .obj [("id", .str "stepA"), ("description", .str "步骤A"),
          ("dependencies", .arr [.str "stepB"])],
    .obj [("id", .str "stepB"), ("description", .str "步骤B"),
          ("dependencies", .arr [.str "stepA"])]])]

/-- Mock response for every other prompt. -/
def mockDefaultResponse : Json :=
  .obj [("steps", .arr [
    .obj [("id", .str "default_step"), ("description", .str "默认模拟响应"),
          ("dependencies", .arr [])]])]

/-- State of a `MockLLMClient` (the `delay` sleep is unobservable here);
the default construction `MockLLMClient()` is `\x7b\x7d`. -/
structure MockLLMClient where
  mock_response : Option Json := none
  error_mode : Bool := false
  deriving DecidableEq, Repr

/-- The prompt-dispatch part of `MockLLMClient.generate`. -/
def MockLLMClient.promptResponse (prompt : String) : Json :=
  if pyInStr "分解一个简单的任务" prompt then mockSimpleResponse
  else if pyInStr "循环依赖" prompt then mockCycleResponse
  else mockDefaultResponse

/-- Translation of `MockLLMClient.generate`: raises in `error_mode`,
serves a truthy `mock_response` as its JSON dump, and otherwise dispatches
on the prompt text. -/
def MockLLMClient.generate (c : MockLLMClient) (prompt : String) :
    Except PyExn RawText :=
  if c.error_mode then .error ⟨.runtimeError, "Mock LLM 模拟错误。"⟩
  else
    match c.mock_response with
    | some r =>
      if !r.falsy then .ok (json_dumps r)
      else .ok (json_dumps (MockLLMClient.promptResponse prompt))
    | none => .ok (json_dumps (MockLLMClient.promptResponse prompt))

/-- Specification-level view of a well-formed step object: string `id` and
`description`, a string list of dependency ids (empty when the field is
absent) and an `instructions` list (empty when absent). -/
structure SStep where
  id : String
  description : String
  dependencies : List String
  instructions : List Json

/-- Says that the JSON value `j` is a step object presenting the
spec-level fields of `s`, with non-empty `id` and `description`. -/
def RepStep (j : Json) (s : SStep) : Prop :=
  ∃ fields, j = .obj fields ∧
    fields.lookup "id" = some (.str s.id) ∧ s.id ≠ "" ∧
    fields.lookup "description" = some (.str s.description) ∧
    s.description ≠ "" ∧
    (fields.lookup "dependencies" = some (.arr (s.dependencies.map .str)) ∨
      (fields.lookup "dependencies" = none ∧ s.dependencies = [])) ∧
    (fields.lookup "instructions" = some (.arr s.instructions) ∨
      (fields.lookup "instructions" = none ∧ s.instructions = []))

/-- The dependency edges `(dep, id)` contributed by every occurrence in a
list of spec-level steps. -/
def sstepEdges : List SStep → List (Json × Json)
  | [] => []
  | s :: rest =>
      s.dependencies.map (fun d => (Json.str d, Json.str s.id)) ++ sstepEdges rest

/-- The detail-map entry a step contributes. -/
def mkDetail (s : SStep) : StepDetail :=
  ⟨.str s.description, .arr s.instructions, .arr (s.dependencies.map .str)⟩

/-- The node ids of a graph. -/
def DiGraph.nodeIds (g : DiGraph) : List Json := g.nodes.map Prod.fst

/-- The attribute data of a node (`none` when the node is absent). -/
def DiGraph.nodeAttr (g : DiGraph) (k : Json) : Option (Option (Json × Json)) :=
  (g.nodes.find? (fun p => p.1 == k)).map (fun p => p.2)

/-- Acyclicity check for a bare edge list. -/
def edgesAcyclic (E : List (Json × Json)) : Bool :=
  nx_is_directed_acyclic_graph ⟨[], E⟩

theorem hasNode_iff {g : DiGraph} {v : Json} :
    g.hasNode v = true ↔ v ∈ g.nodeIds := by
  simp only [DiGraph.hasNode, DiGraph.nodeIds, List.any_eq_true, List.mem_map,
    beq_iff_eq]

theorem map_fst_key_update {β : Type} (k : Json) (c : β) :
    ∀ (l : List (Json × β)),
      (l.map (fun p => if p.1 == k then (p.1, c) else p)).map Prod.fst =
        l.map Prod.fst := by
  intro l
  induction l with
  | nil => rfl
  | cons p rest ih =>
    simp only [List.map_cons]
    by_cases hp : (p.1 == k) = true
    · rw [if_pos hp, ih]
    · rw [if_neg hp, ih]

theorem add_node_nodeIds {g : DiGraph} {v d i n : Json} :
    n ∈ (g.add_node v d i).nodeIds ↔ n ∈ g.nodeIds ∨ n = v := by
  unfold DiGraph.add_node DiGraph.nodeIds
  by_cases h : g.hasNode v
  · have hv : v ∈ g.nodes.map Prod.fst := hasNode_iff.mp h
    rw [if_pos h]
    show n ∈ (g.nodes.map _).map Prod.fst ↔ _
    rw [map_fst_key_update]
    constructor
    · exact Or.inl
    · rintro (hn | rfl)
      · exact hn
      · exact hv
  · rw [if_neg h]
    show n ∈ (g.nodes ++ [(v, some (d, i))]).map Prod.fst ↔ _
    simp

theorem add_node_edges {g : DiGraph} {v d i : Json} :
    (g.add_node v d i).edges = g.edges := by
  unfold DiGraph.add_node
  by_cases h : g.hasNode v
  · rw [if_pos h]
  · rw [if_neg h]

theorem ensureNode_nodeIds {g : DiGraph} {v n : Json} :
    n ∈ (g.ensureNode v).nodeIds ↔ n ∈ g.nodeIds ∨ n = v := by
  unfold DiGraph.ensureNode DiGraph.nodeIds
  by_cases h : g.hasNode v
  · have hv : v ∈ g.nodes.map Prod.fst := hasNode_iff.mp h
    rw [if_pos h]
    constructor
    · exact Or.inl
    · rintro (hn | rfl)
      · exact hn
      · exact hv
  · rw [if_neg h]
    show n ∈ (g.nodes ++ [(v, none)]).map Prod.fst ↔ _
    simp

theorem ensureNode_edges {g : DiGraph} {v : Json} :
    (g.ensureNode v).edges = g.edges := by
  unfold DiGraph.ensureNode
  by_cases h : g.hasNode v
  · rw [if_pos h]
  · rw [if_neg h]

theorem add_edge_nodeIds {g : DiGraph} {u v n : Json} :
    n ∈ (g.add_edge u v).nodeIds ↔ n ∈ g.nodeIds ∨ n = u ∨ n = v := by
  unfold DiGraph.add_edge
  have base : ∀ m, m ∈ ((g.ensureNode u).ensureNode v).nodeIds ↔
      m ∈ g.nodeIds ∨ m = u ∨ m = v := by
    intro m
    rw [ensureNode_nodeIds, ensureNode_nodeIds]
    tauto
  by_cases h : (u, v) ∈ ((g.ensureNode u).ensureNode v).edges
  · rw [if_pos h]
    exact base n
  · rw [if_neg h]
    show n ∈ DiGraph.nodeIds _ ↔ _
    unfold DiGraph.nodeIds at base ⊢
    exact base n

theorem add_edge_mem_edges {g : DiGraph} {u v : Json} {e : Json × Json} :
    e ∈ (g.add_edge u v).edges ↔ e ∈ g.edges ∨ e = (u, v) := by
  unfold DiGraph.add_edge
  by_cases h : (u, v) ∈ ((g.ensureNode u).ensureNode v).edges
  · rw [if_pos h]
    rw [ensureNode_edges, ensureNode_edges] at h ⊢
    constructor
    · exact Or.inl
    · rintro (he | rfl)
      · exact he
      · exact h
  · rw [if_neg h]
    show e ∈ ((g.ensureNode u).ensureNode v).edges ++ [(u, v)] ↔ _
    rw [ensureNode_edges, ensureNode_edges]
    simp


theorem nodeAttr_isSome_of_mem {g : DiGraph} {k : Json}
    (h : k ∈ g.nodeIds) : ∃ a, g.nodeAttr k = some a := by
  simp only [DiGraph.nodeIds, List.mem_map] at h
  obtain ⟨p, hp, rfl⟩ := h
  have : (g.nodes.find? (fun q => q.1 == p.1)).isSome := by
    rw [List.find?_isSome]
    exact ⟨p, hp, by simp⟩
  obtain ⟨q, hq⟩ := Option.isSome_iff_exists.mp this
  exact ⟨q.2, by simp [DiGraph.nodeAttr, hq]⟩

theorem find?_key_update_self {β : Type} (k : Json) (c : β) :
    ∀ (l : List (Json × β)), (l.any (fun p => p.1 == k)) = true →
      ((l.map (fun p => if p.1 == k then (p.1, c) else p)).find? (fun p => p.1 == k)) =
        some (k, c) := by
  intro l
  induction l with
  | nil => simp
  | cons p rest ih =>
    intro h
    simp only [List.map_cons]
    by_cases hp : (p.1 == k) = true
    · rw [if_pos hp]
      have hpk : p.1 = k := by simpa using hp
      rw [List.find?_cons_of_pos _ (by simpa using hp), hpk]
    · rw [if_neg hp]
      rw [List.find?_cons_of_neg _ (by simpa using hp)]
      apply ih
      simp only [List.any_cons, hp, Bool.false_or] at h
      exact h

theorem find?_key_update_other {β : Type} (k k' : Json) (c : β) (hk : k' ≠ k) :
    ∀ (l : List (Json × β)),
      ((l.map (fun p => if p.1 == k then (p.1, c) else p)).find? (fun p => p.1 == k')) =
        l.find? (fun p => p.1 == k') := by
  intro l
  induction l with
  | nil => rfl
  | cons p rest ih =>
    simp only [List.map_cons, List.find?_cons]
    by_cases hp : (p.1 == k) = true
    · have hpk : p.1 = k := by simpa using hp
      rw [if_pos hp]
      have h1 : ((p.1, c).1 == k') = false := by
        show (p.1 == k') = false
        rw [hpk]
        exact beq_eq_false_iff_ne.mpr (Ne.symm hk)
      rw [h1]
      exact ih
    · rw [if_neg hp]
      by_cases hq : (p.1 == k') = true
      · rw [hq]
      · have hq' : (p.1 == k') = false := by
          simp only [Bool.not_eq_true] at hq
          exact hq
        rw [hq']
        exact ih

theorem add_node_attr_self {g : DiGraph} {v d i : Json} :
    (g.add_node v d i).nodeAttr v = some (some (d, i)) := by
  unfold DiGraph.add_node DiGraph.nodeAttr
  by_cases h : g.hasNode v
  · rw [if_pos h]
    show ((g.nodes.map _).find? _).map _ = _
    rw [find?_key_update_self v (some (d, i)) g.nodes h]
    rfl
  · rw [if_neg h]
    show ((g.nodes ++ [(v, some (d, i))]).find? _).map _ = _
    rw [List.find?_append]
    have hnone : g.nodes.find? (fun p => p.1 == v) = none := by
      rw [List.find?_eq_none]
      intro x hx hpx
      exact h (List.any_eq_true.mpr ⟨x, hx, hpx⟩)
    rw [hnone]
    simp

theorem add_node_attr_other {g : DiGraph} {v d i k : Json} (hk : k ≠ v) :
    (g.add_node v d i).nodeAttr k = g.nodeAttr k := by
  unfold DiGraph.add_node DiGraph.nodeAttr
  by_cases h : g.hasNode v
  · rw [if_pos h]
    show ((g.nodes.map _).find? _).map _ = _
    rw [find?_key_update_other v k (some (d, i)) hk g.nodes]
  · rw [if_neg h]
    show ((g.nodes ++ [(v, some (d, i))]).find? _).map _ = _
    rw [List.find?_append]
    have : ([(v, some (d, i))].find? (fun p => p.1 == k)) = none := by
      rw [List.find?_eq_none]
      intro x hx
      simp only [List.mem_singleton] at hx
      subst hx
      simp
      exact fun he => hk he.symm
    rw [this, Option.or_none]

theorem ensureNode_attr {g : DiGraph} {v k : Json} {a : Option (Json × Json)}
    (h : g.nodeAttr k = some a) : (g.ensureNode v).nodeAttr k = some a := by
  unfold DiGraph.ensureNode
  by_cases hv : g.hasNode v
  · rw [if_pos hv]
    exact h
  · rw [if_neg hv]
    unfold DiGraph.nodeAttr at h ⊢
    show ((g.nodes ++ [(v, none)]).find? _).map _ = _
    rw [List.find?_append]
    obtain ⟨w, hw1, hw2⟩ := Option.map_eq_some'.mp h
    rw [hw1, Option.or_some]
    simp [hw2]

theorem add_edge_attr {g : DiGraph} {u v k : Json} {a : Option (Json × Json)}
    (h : g.nodeAttr k = some a) : (g.add_edge u v).nodeAttr k = some a := by
  unfold DiGraph.add_edge
  have h2 : ((g.ensureNode u).ensureNode v).nodeAttr k = some a :=
    ensureNode_attr (ensureNode_attr h)
  by_cases hc : (u, v) ∈ ((g.ensureNode u).ensureNode v).edges
  · rw [if_pos hc]
    exact h2
  · rw [if_neg hc]
    unfold DiGraph.nodeAttr at h2 ⊢
    exact h2

theorem dictInsert_eq_append {m : Details} {k : Json} {v : StepDetail}
    (h : dictHasKey m k = false) : dictInsert m k v = m ++ [(k, v)] := by
  unfold dictInsert
  rw [if_neg]
  intro hc
  rw [show (m.any fun p => p.1 == k) = dictHasKey m k from rfl, h] at hc
  exact Bool.false_ne_true hc

theorem dictInsert_lookup_self {m : Details} {k : Json} {v : StepDetail} :
    dictLookup (dictInsert m k v) k = some v := by
  unfold dictInsert dictLookup
  by_cases h : (m.any fun p => p.1 == k) = true
  · rw [if_pos h]
    rw [find?_key_update_self k v m h]
    rfl
  · rw [if_neg h]
    rw [List.find?_append]
    have hnone : m.find? (fun p => p.1 == k) = none := by
      rw [List.find?_eq_none]
      intro x hx hpx
      exact h (List.any_eq_true.mpr ⟨x, hx, hpx⟩)
    rw [hnone]
    simp

theorem dictInsert_lookup_other {m : Details} {k k' : Json} {v : StepDetail}
    (hk : k' ≠ k) : dictLookup (dictInsert m k v) k' = dictLookup m k' := by
  unfold dictInsert dictLookup
  by_cases h : (m.any fun p => p.1 == k) = true
  · rw [if_pos h]
    rw [find?_key_update_other k k' v hk m]
  · rw [if_neg h]
    rw [List.find?_append]
    have : ([(k, v)].find? (fun p => p.1 == k')) = none := by
      rw [List.find?_eq_none]
      intro x hx
      simp only [List.mem_singleton] at hx
      subst hx
      simp
      exact fun he => hk he.symm
    rw [this, Option.or_none]

theorem dictHasKey_iff {m : Details} {k : Json} :
    dictHasKey m k = true ↔ k ∈ m.map Prod.fst := by
  simp only [dictHasKey, List.any_eq_true, List.mem_map, beq_iff_eq]

theorem dictHasKey_insert {m : Details} {k k' : Json} {v : StepDetail} :
    dictHasKey (dictInsert m k v) k' = true ↔ dictHasKey m k' = true ∨ k' = k := by
  rw [dictHasKey_iff, dictHasKey_iff]
  unfold dictInsert
  by_cases h : (m.any fun p => p.1 == k) = true
  · rw [if_pos h]
    rw [map_fst_key_update]
    constructor
    · exact Or.inl
    · rintro (hm | rfl)
      · exact hm
      · obtain ⟨p, hp, hpk⟩ := List.any_eq_true.mp h
        exact List.mem_map.mpr ⟨p, hp, by simpa using hpk⟩
  · rw [if_neg h]
    simp only [List.map_append, List.map_cons, List.map_nil, List.mem_append,
      List.mem_singleton]

theorem depFold_edges (dm : Details) (sid : Json) :
    ∀ (deps : List Json) (g : DiGraph) (ws : List String) (e : Json × Json),
      e ∈ (depFold dm sid deps g ws).1.edges ↔
        e ∈ g.edges ∨ ∃ d ∈ deps, e = (d, sid) := by
  intro deps
  induction deps with
  | nil => simp [depFold]
  | cons d rest ih =>
    intro g ws e
    show e ∈ (depFold dm sid rest (g.add_edge d sid) _).1.edges ↔ _
    rw [ih]
    rw [add_edge_mem_edges]
    simp only [List.mem_cons]
    constructor
    · rintro ((he | rfl) | ⟨d', hd', rfl⟩)
      · exact Or.inl he
      · exact Or.inr ⟨d, Or.inl rfl, rfl⟩
      · exact Or.inr ⟨d', Or.inr hd', rfl⟩
    · rintro (he | ⟨d', (rfl | hd'), rfl⟩)
      · exact Or.inl (Or.inl he)
      · exact Or.inl (Or.inr rfl)
      · exact Or.inr ⟨d', hd', rfl⟩

theorem depFold_nodeIds (dm : Details) (sid : Json) :
    ∀ (deps : List Json) (g : DiGraph) (ws : List String) (n : Json),
      sid ∈ g.nodeIds →
      (n ∈ (depFold dm sid deps g ws).1.nodeIds ↔
        n ∈ g.nodeIds ∨ n ∈ deps) := by
  intro deps
  induction deps with
  | nil => simp [depFold]
  | cons d rest ih =>
    intro g ws n hsid
    show n ∈ (depFold dm sid rest (g.add_edge d sid) _).1.nodeIds ↔ _
    rw [ih _ _ _ (add_edge_nodeIds.mpr (Or.inl hsid))]
    rw [add_edge_nodeIds]
    simp only [List.mem_cons]
    constructor
    · rintro ((hn | rfl | rfl) | hn)
      · exact Or.inl hn
      · exact Or.inr (Or.inl rfl)
      · exact Or.inl hsid
      · exact Or.inr (Or.inr hn)
    · rintro (hn | rfl | hn)
      · exact Or.inl (Or.inl hn)
      · exact Or.inl (Or.inr (Or.inl rfl))
      · exact Or.inr hn

theorem depFold_attr (dm : Details) (sid : Json) :
    ∀ (deps : List Json) (g : DiGraph) (ws : List String) (k : Json)
      (a : Option (Json × Json)),
      g.nodeAttr k = some a → (depFold dm sid deps g ws).1.nodeAttr k = some a := by
  intro deps
  induction deps with
  | nil =>
    intro g ws k a h
    exact h
  | cons d rest ih =>
    intro g ws k a h
    exact ih _ _ _ _ (add_edge_attr h)

theorem depFold_warnings (dm : Details) (sid : Json) :
    ∀ (deps : List Json) (g : DiGraph) (ws : List String) (x : String),
      x ∈ (depFold dm sid deps g ws).2 ↔
        x ∈ ws ∨ ∃ d ∈ deps, dictHasKey dm d = false ∧
          x = unknownDepWarning sid d := by
  intro deps
  induction deps with
  | nil => simp [depFold]
  | cons d rest ih =>
    intro g ws x
    show x ∈ (depFold dm sid rest (g.add_edge d sid)
        (if dictHasKey dm d then ws else ws ++ [unknownDepWarning sid d])).2 ↔ _
    rw [ih]
    simp only [List.mem_cons]
    by_cases hk : dictHasKey dm d = true
    · rw [if_pos hk]
      constructor
      · rintro (hx | ⟨d', hd', hkd', rfl⟩)
        · exact Or.inl hx
        · exact Or.inr ⟨d', Or.inr hd', hkd', rfl⟩
      · rintro (hx | ⟨d', (rfl | hd'), hkd', rfl⟩)
        · exact Or.inl hx
        · rw [hk] at hkd'
          exact absurd hkd' (by simp)
        · exact Or.inr ⟨d', hd', hkd', rfl⟩
    · have hk' : dictHasKey dm d = false := by
        simp only [Bool.not_eq_true] at hk
        exact hk
      rw [if_neg (by rw [hk']; exact Bool.false_ne_true)]
      simp only [List.mem_append, List.mem_singleton]
      constructor
      · rintro ((hx | rfl) | ⟨d', hd', hkd', rfl⟩)
        · exact Or.inl hx
        · exact Or.inr ⟨d, Or.inl rfl, hk', rfl⟩
        · exact Or.inr ⟨d', Or.inr hd', hkd', rfl⟩
      · rintro (hx | ⟨d', (rfl | hd'), hkd', rfl⟩)
        · exact Or.inl (Or.inl hx)
        · exact Or.inl (Or.inr rfl)
        · exact Or.inr ⟨d', hd', hkd', rfl⟩

theorem ensureNode_attr_inv {g : DiGraph} {v k : Json} {a : Json × Json}
    (h : (g.ensureNode v).nodeAttr k = some (some a)) :
    g.nodeAttr k = some (some a) := by
  unfold DiGraph.ensureNode at h
  by_cases hv : g.hasNode v
  · rw [if_pos hv] at h
    exact h
  · rw [if_neg hv] at h
    unfold DiGraph.nodeAttr at h ⊢
    have h' : ((g.nodes ++ [(v, none)]).find?
        (fun p : Json × Option (Json × Json) => p.1 == k)).map
        (fun p : Json × Option (Json × Json) => p.2) = some (some a) := h
    rw [List.find?_append] at h'
    cases hf : g.nodes.find? (fun p => p.1 == k) with
    | some p =>
      rw [hf, Option.or_some] at h'
      exact h'
    | none =>
      rw [hf, Option.none_or] at h'
      by_cases hvk : (v == k) = true
      · have hone : ([(v, none)] : List (Json × Option (Json × Json))).find?
            (fun p => p.1 == k) = some (v, none) :=
          List.find?_cons_of_pos _ (by simpa using hvk)
        rw [hone] at h'
        simp at h'
      · have hone : ([(v, none)] : List (Json × Option (Json × Json))).find?
            (fun p => p.1 == k) = none := by
          rw [List.find?_eq_none]
          intro x hx
          simp only [List.mem_singleton] at hx
          subst hx
          simpa using hvk
        rw [hone] at h'
        simp at h'

theorem add_edge_attr_inv {g : DiGraph} {u v k : Json} {a : Json × Json}
    (h : (g.add_edge u v).nodeAttr k = some (some a)) :
    g.nodeAttr k = some (some a) := by
  unfold DiGraph.add_edge at h
  by_cases hc : (u, v) ∈ ((g.ensureNode u).ensureNode v).edges
  · rw [if_pos hc] at h
    exact ensureNode_attr_inv (ensureNode_attr_inv h)
  · rw [if_neg hc] at h
    have h' : ((g.ensureNode u).ensureNode v).nodeAttr k = some (some a) := h
    exact ensureNode_attr_inv (ensureNode_attr_inv h')

theorem depFold_attr_inv (dm : Details) (sid : Json) :
    ∀ (deps : List Json) (g : DiGraph) (ws : List String) (k : Json)
      (a : Json × Json),
      (depFold dm sid deps g ws).1.nodeAttr k = some (some a) →
      g.nodeAttr k = some (some a) := by
  intro deps
  induction deps with
  | nil =>
    intro g ws k a h
    exact h
  | cons d rest ih =>
    intro g ws k a h
    exact add_edge_attr_inv (ih _ _ _ _ h)

theorem processStep_spec {g : DiGraph} {dm : Details} {ws : List String}
    {j : Json} {s : SStep} (hrep : RepStep j s) :
    ∃ G W, processStep g dm ws j =
        (.ok (G, dictInsert dm (.str s.id) (mkDetail s)), W) ∧
      (∀ e, e ∈ G.edges ↔ e ∈ g.edges ∨
        ∃ d ∈ s.dependencies, e = (.str d, .str s.id)) ∧
      (∀ n, n ∈ G.nodeIds ↔ n ∈ g.nodeIds ∨ n = .str s.id ∨
        ∃ d ∈ s.dependencies, n = .str d) ∧
      G.nodeAttr (.str s.id) =
        some (some (.str s.description, .arr s.instructions)) ∧
      (∀ k a, k ≠ .str s.id → g.nodeAttr k = some a → G.nodeAttr k = some a) ∧
      (∀ k a, G.nodeAttr k = some (some a) →
        k = .str s.id ∨ g.nodeAttr k = some (some a)) ∧
      (∀ x, x ∈ W ↔ x ∈ ws ∨ ∃ d ∈ s.dependencies,
        dictHasKey (dictInsert dm (.str s.id) (mkDetail s)) (.str d) = false ∧
        x = unknownDepWarning (.str s.id) (.str d)) := by
  obtain ⟨fields, rfl, hid, hidne, hdesc, hdescne, hdeps, hinstr⟩ := hrep
  have h1 : jget (.obj fields) "id" .null = .ok (.str s.id) := by
    simp [jget, hid]
  have h2 : jget (.obj fields) "description" .null = .ok (.str s.description) := by
    simp [jget, hdesc]
  have h3 : jget (.obj fields) "dependencies" (.arr []) =
      .ok (.arr (s.dependencies.map .str)) := by
    rcases hdeps with h | ⟨h, hnil⟩
    · simp [jget, h]
    · simp [jget, h, hnil]
  have h4 : jget (.obj fields) "instructions" (.arr []) =
      .ok (.arr s.instructions) := by
    rcases hinstr with h | ⟨h, hnil⟩
    · simp [jget, h]
    · simp [jget, h, hnil]
  have hfalsy : ((Json.str s.id).falsy || (Json.str s.description).falsy) = false := by
    simp [Json.falsy, hidne, hdescne]
  have hps : processStep g dm ws (.obj fields) =
      (.ok ((depFold (dictInsert dm (.str s.id) (mkDetail s)) (.str s.id)
          (s.dependencies.map .str)
          (g.add_node (.str s.id) (.str s.description) (.arr s.instructions)) ws).1,
        dictInsert dm (.str s.id) (mkDetail s)),
       (depFold (dictInsert dm (.str s.id) (mkDetail s)) (.str s.id)
          (s.dependencies.map .str)
          (g.add_node (.str s.id) (.str s.description) (.arr s.instructions)) ws).2) := by
    unfold processStep
    rw [h1, h2, h3, h4]
    show (if ((Json.str s.id).falsy || (Json.str s.description).falsy) = true
        then _ else _) = _
    rw [hfalsy]
    rfl
  refine ⟨_, _, hps, ?_, ?_, ?_, ?_, ?_, ?_⟩
  · intro e
    rw [depFold_edges, add_node_edges]
    constructor
    · rintro (he | ⟨d', hd', rfl⟩)
      · exact Or.inl he
      · obtain ⟨d, hd, rfl⟩ := List.mem_map.mp hd'
        exact Or.inr ⟨d, hd, rfl⟩
    · rintro (he | ⟨d, hd, rfl⟩)
      · exact Or.inl he
      · exact Or.inr ⟨.str d, List.mem_map.mpr ⟨d, hd, rfl⟩, rfl⟩
  · intro n
    rw [depFold_nodeIds _ _ _ _ _ _ (add_node_nodeIds.mpr (Or.inr rfl))]
    rw [add_node_nodeIds]
    constructor
    · rintro ((hn | rfl) | hn)
      · exact Or.inl hn
      · exact Or.inr (Or.inl rfl)
      · obtain ⟨d, hd, rfl⟩ := List.mem_map.mp hn
        exact Or.inr (Or.inr ⟨d, hd, rfl⟩)
    · rintro (hn | rfl | ⟨d, hd, rfl⟩)
      · exact Or.inl (Or.inl hn)
      · exact Or.inl (Or.inr rfl)
      · exact Or.inr (List.mem_map.mpr ⟨d, hd, rfl⟩)
  · exact depFold_attr _ _ _ _ _ _ _ add_node_attr_self
  · intro k a hk ha
    refine depFold_attr _ _ _ _ _ _ _ ?_
    rw [add_node_attr_other hk]
    exact ha
  · intro k a h
    have h2 := depFold_attr_inv _ _ _ _ _ _ _ h
    by_cases hk : k = Json.str s.id
    · exact Or.inl hk
    · right
      rw [add_node_attr_other hk] at h2
      exact h2
  · intro x
    rw [depFold_warnings]
    constructor
    · rintro (hx | ⟨d', hd', hkd', rfl⟩)
      · exact Or.inl hx
      · obtain ⟨d, hd, rfl⟩ := List.mem_map.mp hd'
        exact Or.inr ⟨d, hd, hkd', rfl⟩
    · rintro (hx | ⟨d, hd, hkd, rfl⟩)
      · exact Or.inl hx
      · exact Or.inr ⟨.str d, List.mem_map.mpr ⟨d, hd, rfl⟩, hkd, rfl⟩

theorem mem_sstepEdges_cons {s : SStep} {l : List SStep} {e : Json × Json} :
    e ∈ sstepEdges (s :: l) ↔
      (∃ d ∈ s.dependencies, e = (.str d, .str s.id)) ∨ e ∈ sstepEdges l := by
  simp only [sstepEdges, List.mem_append, List.mem_map]
  constructor
  · rintro (⟨d, hd, rfl⟩ | he)
    · exact Or.inl ⟨d, hd, rfl⟩
    · exact Or.inr he
  · rintro (⟨d, hd, rfl⟩ | he)
    · exact Or.inl ⟨d, hd, rfl⟩
    · exact Or.inr he

theorem processSteps_cons_ok {j : Json} {rest : List Json} {g : DiGraph}
    {dm : Details} {ws : List String} {G1 : DiGraph} {D1 : Details}
    {W1 : List String} (h : processStep g dm ws j = (.ok (G1, D1), W1)) :
    processSteps (j :: rest) g dm ws = processSteps rest G1 D1 W1 := by
  simp only [processSteps]
  rw [h]

theorem processSteps_cons_err {j : Json} {rest : List Json} {g : DiGraph}
    {dm : Details} {ws : List String} {e : PyExn} {W1 : List String}
    (h : processStep g dm ws j = (.error e, W1)) :
    processSteps (j :: rest) g dm ws = (.error e, W1) := by
  simp only [processSteps]
  rw [h]

theorem processSteps_spec :
    ∀ {steps : List Json} {sspecs : List SStep},
      List.Forall₂ RepStep steps sspecs →
      ∀ (g : DiGraph) (dm : Details) (ws : List String),
      ∃ G D W, processSteps steps g dm ws = (.ok (G, D), W) ∧
        (∀ e, e ∈ G.edges ↔ e ∈ g.edges ∨ e ∈ sstepEdges sspecs) ∧
        (∀ n, n ∈ G.nodeIds ↔ n ∈ g.nodeIds ∨
          (∃ s ∈ sspecs, n = .str s.id) ∨
          (∃ s ∈ sspecs, ∃ d ∈ s.dependencies, n = .str d)) := by
  intro steps sspecs hrep
  induction hrep with
  | nil =>
    intro g dm ws
    exact ⟨g, dm, ws, rfl, by simp [sstepEdges], by simp⟩
  | @cons j s rest srest hr hrs ih =>
    intro g dm ws
    obtain ⟨G1, W1, hps, hE1, hN1, _, _, _, _⟩ := processStep_spec hr
    obtain ⟨G, D, W, hrun, hE, hN⟩ :=
      ih G1 (dictInsert dm (.str s.id) (mkDetail s)) W1
    refine ⟨G, D, W, ?_, ?_, ?_⟩
    · rw [processSteps_cons_ok hps]
      exact hrun
    · intro e
      rw [hE e, hE1 e, mem_sstepEdges_cons]
      exact or_assoc
    · intro n
      rw [hN n, hN1 n]
      simp only [List.mem_cons]
      constructor
      · rintro ((hn | rfl | ⟨d, hd, rfl⟩) | ⟨t, ht, rfl⟩ | ⟨t, ht, d, hd, rfl⟩)
        · exact Or.inl hn
        · exact Or.inr (Or.inl ⟨s, Or.inl rfl, rfl⟩)
        · exact Or.inr (Or.inr ⟨s, Or.inl rfl, d, hd, rfl⟩)
        · exact Or.inr (Or.inl ⟨t, Or.inr ht, rfl⟩)
        · exact Or.inr (Or.inr ⟨t, Or.inr ht, d, hd, rfl⟩)
      · rintro (hn | ⟨t, (rfl | ht), rfl⟩ | ⟨t, (rfl | ht), d, hd, rfl⟩)
        · exact Or.inl (Or.inl hn)
        · exact Or.inl (Or.inr (Or.inl rfl))
        · exact Or.inr (Or.inl ⟨t, ht, rfl⟩)
        · exact Or.inl (Or.inr (Or.inr ⟨d, hd, rfl⟩))
        · exact Or.inr (Or.inr ⟨t, ht, d, hd, rfl⟩)

theorem processSteps_details :
    ∀ {steps : List Json} {sspecs : List SStep},
      List.Forall₂ RepStep steps sspecs →
      ∀ (g : DiGraph) (dm : Details) (ws : List String),
      (sspecs.map SStep.id).Nodup →
      (∀ s ∈ sspecs, dictHasKey dm (.str s.id) = false) →
      ∀ {G : DiGraph} {D : Details} {W : List String},
        processSteps steps g dm ws = (.ok (G, D), W) →
        D = dm ++ sspecs.map (fun s => (Json.str s.id, mkDetail s)) := by
  intro steps sspecs hrep
  induction hrep with
  | nil =>
    intro g dm ws _ _ G D W hrun
    cases hrun
    simp
  | @cons j s rest srest hr hrs ih =>
    intro g dm ws hnd hfresh G D W hrun
    obtain ⟨G1, W1, hps, _, _, _, _, _, _⟩ := processStep_spec hr
    rw [processSteps_cons_ok hps] at hrun
    have hid_fresh : dictHasKey dm (.str s.id) = false :=
      hfresh s (List.mem_cons_self s srest)
    have hnd' : (srest.map SStep.id).Nodup := (List.nodup_cons.mp hnd).2
    have hfresh' : ∀ t ∈ srest, dictHasKey
        (dictInsert dm (.str s.id) (mkDetail s)) (.str t.id) = false := by
      intro t ht
      have h1 : dictHasKey dm (.str t.id) = false :=
        hfresh t (List.mem_cons_of_mem s ht)
      have h2 : Json.str t.id ≠ Json.str s.id := by
        intro he
        have : t.id = s.id := by
          injection he
        exact (List.nodup_cons.mp hnd).1 (this ▸ List.mem_map.mpr ⟨t, ht, rfl⟩)
      rw [← Bool.not_eq_true]
      rw [dictHasKey_insert]
      rintro (hk | hk)
      · rw [h1] at hk
        exact Bool.false_ne_true hk
      · exact h2 hk
    have := ih G1 (dictInsert dm (.str s.id) (mkDetail s)) W1 hnd' hfresh' hrun
    rw [this, dictInsert_eq_append hid_fresh]
    simp

theorem processSteps_preserve :
    ∀ {steps : List Json} {sspecs : List SStep},
      List.Forall₂ RepStep steps sspecs →
      ∀ (k : Json), (∀ s ∈ sspecs, Json.str s.id ≠ k) →
      ∀ (g : DiGraph) (dm : Details) (ws : List String)
        {G : DiGraph} {D : Details} {W : List String},
        processSteps steps g dm ws = (.ok (G, D), W) →
        (∀ a, g.nodeAttr k = some a → G.nodeAttr k = some a) ∧
        dictLookup D k = dictLookup dm k := by
  intro steps sspecs hrep
  induction hrep with
  | nil =>
    intro k _ g dm ws G D W hrun
    cases hrun
    exact ⟨fun a h => h, rfl⟩
  | @cons j s rest srest hr hrs ih =>
    intro k hk g dm ws G D W hrun
    obtain ⟨G1, W1, hps, _, _, _, hpres, _, _⟩ := processStep_spec hr
    rw [processSteps_cons_ok hps] at hrun
    have hk_head : Json.str s.id ≠ k := hk s (List.mem_cons_self s srest)
    have hk_rest : ∀ t ∈ srest, Json.str t.id ≠ k :=
      fun t ht => hk t (List.mem_cons_of_mem s ht)
    obtain ⟨hattr, hdict⟩ :=
      ih k hk_rest G1 (dictInsert dm (.str s.id) (mkDetail s)) W1 hrun
    refine ⟨?_, ?_⟩
    · intro a ha
      exact hattr a (hpres k a (fun he => hk_head (he.symm)) ha)
    · rw [hdict, dictInsert_lookup_other (fun he => hk_head (he.symm))]

theorem processSteps_attr_inv :
    ∀ {steps : List Json} {sspecs : List SStep},
      List.Forall₂ RepStep steps sspecs →
      ∀ (g : DiGraph) (dm : Details) (ws : List String)
        {G : DiGraph} {D : Details} {W : List String},
        processSteps steps g dm ws = (.ok (G, D), W) →
        ∀ (k : Json) (a : Json × Json), G.nodeAttr k = some (some a) →
          (∃ s ∈ sspecs, k = Json.str s.id) ∨ g.nodeAttr k = some (some a) := by
  intro steps sspecs hrep
  induction hrep with
  | nil =>
    intro g dm ws G D W hrun k a h
    cases hrun
    exact Or.inr h
  | @cons j s rest srest hr hrs ih =>
    intro g dm ws G D W hrun k a h
    obtain ⟨G1, W1, hps, _, _, _, _, hinv, _⟩ := processStep_spec hr
    rw [processSteps_cons_ok hps] at hrun
    rcases ih G1 (dictInsert dm (.str s.id) (mkDetail s)) W1 hrun k a h with
      ⟨t, ht, rfl⟩ | h1
    · exact Or.inl ⟨t, List.mem_cons_of_mem s ht, rfl⟩
    · rcases hinv k a h1 with rfl | h2
      · exact Or.inl ⟨s, List.mem_cons_self s srest, rfl⟩
      · exact Or.inr h2

theorem processStep_warn_mono (g : DiGraph) (dm : Details) (ws : List String)
    (j : Json) (x : String) (hx : x ∈ ws) : x ∈ (processStep g dm ws j).2 := by
  unfold processStep
  split
  · exact hx
  split
  · exact hx
  split
  · exact hx
  split
  · exact hx
  split
  · exact hx
  split
  · exact hx
  rw [depFold_warnings]
  exact Or.inl hx

theorem processSteps_warn_mono :
    ∀ (steps : List Json) (g : DiGraph) (dm : Details) (ws : List String)
      (x : String), x ∈ ws → x ∈ (processSteps steps g dm ws).2 := by
  intro steps
  induction steps with
  | nil =>
    intro g dm ws x hx
    exact hx
  | cons j rest ih =>
    intro g dm ws x hx
    rcases hres : processStep g dm ws j with ⟨r, W1⟩
    have hx1 : x ∈ W1 := by
      have hmono := processStep_warn_mono g dm ws j x hx
      rw [hres] at hmono
      exact hmono
    cases r with
    | error e =>
      rw [processSteps_cons_err hres]
      exact hx1
    | ok pr =>
      obtain ⟨G1, D1⟩ := pr
      rw [processSteps_cons_ok hres]
      exact ih G1 D1 W1 x hx1

theorem validate_dag_ok {g : DiGraph} (h : g.Acyclic) :
    validate_dag g = .ok true := by
  have hfalse : (g.edges.any fun e => g.reachableWithin g.cycleBound e.1 e.1) =
      false := by
    rw [← Bool.not_eq_true]
    intro hc
    obtain ⟨c, hcyc⟩ := (cyclic_iff g).mp hc
    exact h c hcyc
  unfold validate_dag nx_is_directed_acyclic_graph
  rw [hfalse]
  rfl

theorem validate_dag_err {g : DiGraph} (h : ¬ g.Acyclic) :
    ∃ cyc, g.IsCycle cyc ∧ validate_dag g = .error
      ⟨.valueError, "图验证失败: " ++ ("检测到循环依赖: " ++ pyReprEdgeList cyc)⟩ := by
  obtain ⟨c, hfc, hcyc⟩ := not_acyclic_find_cycle g h
  have hany : (g.edges.any fun e => g.reachableWithin g.cycleBound e.1 e.1) =
      true := (cyclic_iff g).mpr ⟨c, hcyc⟩
  refine ⟨c, hcyc, ?_⟩
  unfold validate_dag nx_is_directed_acyclic_graph
  rw [hany]
  show (match nx_find_cycle g with
    | some cycle => (.error ⟨.valueError,
        "图验证失败: " ++ ("检测到循环依赖: " ++ pyReprEdgeList cycle)⟩ :
          Except PyExn Bool)
    | none => .ok true) = _
  rw [hfc]

theorem IsCycleIn_congr {E1 E2 : List (Json × Json)}
    (h : ∀ e, e ∈ E1 ↔ e ∈ E2) {c : List (Json × Json)} :
    IsCycleIn E1 c ↔ IsCycleIn E2 c := by
  cases c with
  | nil => exact Iff.rfl
  | cons e rest =>
    unfold IsCycleIn
    constructor
    · rintro ⟨hc, hs⟩
      exact ⟨hc, fun x hx => (h x).mp (hs x hx)⟩
    · rintro ⟨hc, hs⟩
      exact ⟨hc, fun x hx => (h x).mpr (hs x hx)⟩

theorem acyclic_of_edges {g : DiGraph} {E : List (Json × Json)}
    (he : ∀ e, e ∈ g.edges ↔ e ∈ E) (h : ∀ c, ¬ IsCycleIn E c) : g.Acyclic :=
  fun c hc => h c ((IsCycleIn_congr he).mp hc)

theorem edgesAcyclic_spec {E : List (Json × Json)} (h : edgesAcyclic E = true) :
    ∀ c, ¬ IsCycleIn E c := by
  intro c hc
  have hany := (cyclic_iff ⟨[], E⟩).mpr ⟨c, hc⟩
  unfold edgesAcyclic nx_is_directed_acyclic_graph at h
  rw [hany] at h
  exact absurd h (by simp)

theorem decompose_body_reduce {generate : GenerateFn} {goal : String}
    {fields : List (String × Json)} {steps : List Json}
    (hgen : generate (_build_llm_prompt goal) = .ok (.jsonOf (.obj fields)))
    (hsteps : fields.lookup "steps" = some (.arr steps)) :
    decompose_body generate goal =
      (match processSteps steps DiGraph.empty [] [] with
        | (.error e, ws) => (.error e, ws)
        | (.ok (graph, details), ws) =>
          match validate_dag graph with
          | .error e => (.error e, ws)
          | .ok _ => ((.ok (graph, details) :
              Except PyExn (DiGraph × Details)), ws)) := by
  unfold decompose_body
  rw [hgen]
  show (match fields.lookup "steps" with
    | none => ((.error ⟨.valueError, "LLM响应格式不符合预期，缺少'steps'键。"⟩ :
        Except PyExn (DiGraph × Details)), ([] : List String))
    | some steps_data =>
      match steps_data with
      | .arr steps2 =>
        (match processSteps steps2 DiGraph.empty [] [] with
          | (.error e, ws) => (.error e, ws)
          | (.ok (graph, details), ws) =>
            match validate_dag graph with
            | .error e => (.error e, ws)
            | .ok _ => (.ok (graph, details), ws))
      | _ => (.error ⟨.valueError, "LLM响应中的'steps'不是列表。"⟩, [])) = _
  rw [hsteps]

theorem decompose_task_of_body_ok {generate : GenerateFn} {goal : String}
    {G : DiGraph} {D : Details} {W : List String}
    (h : decompose_body generate goal = (.ok (G, D), W)) :
    decompose_task generate goal = (.ok (G, D), W) := by
  unfold decompose_task
  rw [h]

theorem decompose_task_of_body_err {generate : GenerateFn} {goal : String}
    {e : PyExn} {W : List String}
    (h : decompose_body generate goal = (.error e, W)) :
    decompose_task generate goal = (.error (wrapExn e), W) := by
  unfold decompose_task
  rw [h]

theorem jget_obj (fields : List (String × Json)) (key : String) (dflt : Json) :
    jget (.obj fields) key dflt = .ok ((fields.lookup key).getD dflt) := by
  show (match fields.lookup key with
    | some v => (Except.ok v : Except PyExn Json)
    | none => Except.ok dflt) = Except.ok ((fields.lookup key).getD dflt)
  cases fields.lookup key <;> rfl

theorem processStep_bad {g : DiGraph} {dm : Details} {ws : List String}
    {bfields : List (String × Json)}
    (hbad : (bfields.lookup "id" = none ∨
             bfields.lookup "id" = some (.str "")) ∨
            (bfields.lookup "description" = none ∨
             bfields.lookup "description" = some (.str ""))) :
    processStep g dm ws (.obj bfields) =
      (.error (missingFieldError (.obj bfields)), ws) := by
  unfold processStep
  simp only [jget_obj]
  have hcond : (((bfields.lookup "id").getD .null).falsy ||
      ((bfields.lookup "description").getD .null).falsy) = true := by
    rcases hbad with h | h
    · rcases h with h | h <;> rw [h] <;> rfl
    · rcases h with h | h <;> rw [h] <;>
        simp [Json.falsy]
  rw [if_pos hcond]

theorem processSteps_append_ok {pre rest : List Json} :
    ∀ {g : DiGraph} {dm : Details} {ws : List String} {G1 : DiGraph}
      {D1 : Details} {W1 : List String},
      processSteps pre g dm ws = (.ok (G1, D1), W1) →
      processSteps (pre ++ rest) g dm ws = processSteps rest G1 D1 W1 := by
  induction pre with
  | nil =>
    intro g dm ws G1 D1 W1 h
    cases h
    rfl
  | cons j pre' ih =>
    intro g dm ws G1 D1 W1 h
    rcases hj : processStep g dm ws j with ⟨r, W'⟩
    cases r with
    | error e =>
      rw [processSteps_cons_err hj] at h
      cases h
    | ok pr =>
      obtain ⟨G2, D2⟩ := pr
      rw [processSteps_cons_ok hj] at h
      rw [List.cons_append, processSteps_cons_ok hj]
      exact ih h

theorem processSteps_detail_keys :
    ∀ {steps : List Json} {sspecs : List SStep},
      List.Forall₂ RepStep steps sspecs →
      ∀ (g : DiGraph) (dm : Details) (ws : List String)
        {G : DiGraph} {D : Details} {W : List String},
        processSteps steps g dm ws = (.ok (G, D), W) →
        ∀ k, dictHasKey D k = true ↔
          dictHasKey dm k = true ∨ ∃ s ∈ sspecs, k = Json.str s.id := by
  intro steps sspecs hrep
  induction hrep with
  | nil =>
    intro g dm ws G D W hrun k
    cases hrun
    simp
  | @cons j s rest srest hr hrs ih =>
    intro g dm ws G D W hrun k
    obtain ⟨G1, W1, hps, _, _, _, _, _, _⟩ := processStep_spec hr
    rw [processSteps_cons_ok hps] at hrun
    rw [ih G1 (dictInsert dm (.str s.id) (mkDetail s)) W1 hrun k,
      dictHasKey_insert]
    simp only [List.mem_cons]
    constructor
    · rintro ((hk | rfl) | ⟨t, ht, rfl⟩)
      · exact Or.inl hk
      · exact Or.inr ⟨s, Or.inl rfl, rfl⟩
      · exact Or.inr ⟨t, Or.inr ht, rfl⟩
    · rintro (hk | ⟨t, (rfl | ht), rfl⟩)
      · exact Or.inl (Or.inl hk)
      · exact Or.inl (Or.inr rfl)
      · exact Or.inr ⟨t, ht, rfl⟩

theorem mem_sstepEdges {l : List SStep} {e : Json × Json} :
    e ∈ sstepEdges l ↔
      ∃ s ∈ l, ∃ d ∈ s.dependencies, e = (.str d, .str s.id) := by
  induction l with
  | nil => simp [sstepEdges]
  | cons s rest ih =>
    rw [mem_sstepEdges_cons, ih]
    simp only [List.mem_cons]
    constructor
    · rintro (⟨d, hd, rfl⟩ | ⟨t, ht, d, hd, rfl⟩)
      · exact ⟨s, Or.inl rfl, d, hd, rfl⟩
      · exact ⟨t, Or.inr ht, d, hd, rfl⟩
    · rintro ⟨t, (rfl | ht), d, hd, rfl⟩
      · exact Or.inl ⟨d, hd, rfl⟩
      · exact Or.inr ⟨t, ht, d, hd, rfl⟩

theorem charsStart_append {n : List Char} :
    ∀ {h t : List Char}, charsStart n h = true → charsStart n (h ++ t) = true := by
  induction n with
  | nil =>
    intro h t _
    rfl
  | cons c cs ih =>
    intro h t hs
    cases h with
    | nil => exact absurd hs (by simp [charsStart])
    | cons b bs =>
      simp only [charsStart, Bool.and_eq_true] at hs ⊢
      exact ⟨hs.1, ih hs.2⟩

theorem charsIn_nil_needle : ∀ (t : List Char), charsIn [] t = true := by
  intro t
  cases t with
  | nil => rfl
  | cons c rest =>
    show (charsStart [] (c :: rest) || charsIn [] rest) = true
    rfl

theorem charsIn_append {n : List Char} :
    ∀ {h t : List Char}, charsIn n h = true → charsIn n (h ++ t) = true := by
  intro h
  induction h with
  | nil =>
    intro t hs
    have : n = [] := by
      cases n with
      | nil => rfl
      | cons c cs => exact absurd hs (by simp [charsIn])
    subst this
    exact charsIn_nil_needle t
  | cons c rest ih =>
    intro t hs
    show (charsStart n (c :: rest ++ t) || charsIn n (rest ++ t)) = true
    have hs' : (charsStart n (c :: rest) || charsIn n rest) = true := hs
    rw [Bool.or_eq_true] at hs' ⊢
    rcases hs' with h1 | h2
    · exact Or.inl (@charsStart_append n (c :: rest) t h1)
    · exact Or.inr (ih h2)

/-- C2: `validate_dag` returns `True` on every acyclic directed graph — in
particular on the empty graph and on a single isolated node — and on every
graph containing a cycle of any length (self-loop, 2-cycle or longer, in
any component) it fails with a `ValueError` whose payload carries at least
one concrete cycle of the graph as an ordered edge sequence. -/
theorem claim_C2_validate_dag (g : DiGraph) :
    (g.Acyclic → validate_dag g = .ok true) ∧
    (¬ g.Acyclic → ∃ cyc, g.IsCycle cyc ∧ validate_dag g = .error
      ⟨.valueError, "图验证失败: " ++ ("检测到循环依赖: " ++ pyReprEdgeList cyc)⟩) :=
  ⟨validate_dag_ok, validate_dag_err⟩

/-- Witness for C2 at concrete inputs: the empty graph validates `True`,
and the 2-cycle `A→B→A` fails with a concrete cycle in its payload. -/
theorem claim_C2_validate_dag_witness :
    (validate_dag DiGraph.empty = .ok true) ∧
    (∃ cyc, ((DiGraph.empty.add_edge (.str "A") (.str "B")).add_edge
        (.str "B") (.str "A")).IsCycle cyc ∧
      validate_dag ((DiGraph.empty.add_edge (.str "A") (.str "B")).add_edge
        (.str "B") (.str "A")) = .error
        ⟨.valueError, "图验证失败: " ++ ("检测到循环依赖: " ++ pyReprEdgeList cyc)⟩) := by
  constructor
  · refine (claim_C2_validate_dag DiGraph.empty).1 (fun c hc => ?_)
    cases c with
    | nil => exact hc
    | cons e rest =>
      have hsub : ∀ x ∈ e :: rest, x ∈ DiGraph.empty.edges := hc.2
      have := hsub e (List.mem_cons_self e rest)
      simp [DiGraph.empty] at this
  · exact (claim_C2_validate_dag _).2 (fun hac =>
      hac [(.str "A", .str "B"), (.str "B", .str "A")] (by decide))

/-- C7: any exception raised inside `decompose_task` that is not already a
`ValueError` — for example any failure of `llm_client.generate` — is
re-raised as a `RuntimeError` whose message preserves the original
message, while a `ValueError` propagates unchanged in kind. -/
theorem claim_C7_error_wrapping (generate : GenerateFn) (goal : String)
    (e : PyExn) :
    (∀ W, decompose_body generate goal = (.error e, W) →
      decompose_task generate goal =
        (.error (if e.kind = .valueError then e
          else ⟨.runtimeError, "任务分解失败: " ++ e.msg⟩), W)) ∧
    (generate (_build_llm_prompt goal) = .error e →
      decompose_task generate goal =
        (.error (if e.kind = .valueError then e
          else ⟨.runtimeError, "任务分解失败: " ++ e.msg⟩), [])) := by
  constructor
  · intro W h
    rw [decompose_task_of_body_err h]
    rfl
  · intro h
    have hb : decompose_body generate goal = (.error e, []) := by
      unfold decompose_body
      rw [h]
    rw [decompose_task_of_body_err hb]
    rfl

/-- Witness for C7: the mock client in `error_mode` raises
`RuntimeError("Mock LLM 模拟错误。")`, and `decompose_task` surfaces it as
`RuntimeError("任务分解失败: Mock LLM 模拟错误。")`. -/
theorem claim_C7_error_wrapping_witness :
    MockLLMClient.generate ⟨none, true⟩ (_build_llm_prompt "测试LLM客户端错误") =
      .error ⟨.runtimeError, "Mock LLM 模拟错误。"⟩ ∧
    decompose_task (MockLLMClient.generate ⟨none, true⟩) "测试LLM客户端错误" =
      (.error ⟨.runtimeError, "任务分解失败: Mock LLM 模拟错误。"⟩, []) := by
  refine ⟨rfl, ?_⟩
  have h := (claim_C7_error_wrapping (MockLLMClient.generate ⟨none, true⟩)
    "测试LLM客户端错误" ⟨.runtimeError, "Mock LLM 模拟错误。"⟩).2 rfl
  exact h

/-- C8: `_build_llm_prompt` is pure and deterministic — equal goals give
the identical string — and for every goal, of any content or length, the
result embeds the goal verbatim as a substring and contains the
schema-key substrings `steps`, `id`, `description`, `dependencies` and
`instructions`. -/
theorem claim_C8_build_prompt (goal : String) :
    _build_llm_prompt goal = _build_llm_prompt goal ∧
    (∃ a b, _build_llm_prompt goal = a ++ goal ++ b) ∧
    pyInStr "steps" (_build_llm_prompt goal) = true ∧
    pyInStr "id" (_build_llm_prompt goal) = true ∧
    pyInStr "description" (_build_llm_prompt goal) = true ∧
    pyInStr "dependencies" (_build_llm_prompt goal) = true ∧
    pyInStr "instructions" (_build_llm_prompt goal) = true := by
  refine ⟨rfl, ⟨promptPart1, promptPart2, rfl⟩, ?_, ?_, ?_, ?_, ?_⟩ <;>
  · show charsIn _ ((promptPart1 ++ goal ++ promptPart2).toList) = true
    rw [show (promptPart1 ++ goal ++ promptPart2).toList =
      promptPart1.toList ++ (goal.toList ++ promptPart2.toList) from by
        simp [String.toList]]
    exact charsIn_append (by decide)

/-- Helper for C4: a parsed response that is a dict without the key
`"steps"`, or not a dict at all, yields the schema `ValueError`. -/
theorem decompose_body_no_steps {generate : GenerateFn} {goal : String}
    {j : Json} (hgen : generate (_build_llm_prompt goal) = .ok (.jsonOf j))
    (hshape : (∀ fields, j = .obj fields → fields.lookup "steps" = none) ∧
      (∀ fields, j ≠ .obj fields) ∨
      (∃ fields, j = .obj fields ∧ fields.lookup "steps" = none)) :
    decompose_body generate goal =
      (.error ⟨.valueError, "LLM响应格式不符合预期，缺少'steps'键。"⟩, []) := by
  unfold decompose_body
  rw [hgen]
  cases j with
  | obj fields =>
    have hlk : fields.lookup "steps" = none := by
      rcases hshape with ⟨h, _⟩ | ⟨fields2, heq, hlk⟩
      · exact h fields rfl
      · cases heq
        exact hlk
    show (match fields.lookup "steps" with
      | none => ((.error ⟨.valueError, "LLM响应格式不符合预期，缺少'steps'键。"⟩ :
          Except PyExn (DiGraph × Details)), ([] : List String))
      | some steps_data =>
        match steps_data with
        | .arr steps2 =>
          (match processSteps steps2 DiGraph.empty [] [] with
            | (.error e, ws) => (.error e, ws)
            | (.ok (graph, details), ws) =>
              match validate_dag graph with
              | .error e => (.error e, ws)
              | .ok _ => (.ok (graph, details), ws))
        | _ => (.error ⟨.valueError, "LLM响应中的'steps'不是列表。"⟩, [])) = _
    rw [hlk]
  | null => rfl
  | bool b => rfl
  | num n => rfl
  | str s => rfl
  | arr items => rfl

/-- Helper for C4: a dict whose `"steps"` value is not a list yields the
`ValueError` for a non-list `steps`. -/
theorem decompose_body_steps_not_list {generate : GenerateFn} {goal : String}
    {fields : List (String × Json)} {v : Json}
    (hgen : generate (_build_llm_prompt goal) = .ok (.jsonOf (.obj fields)))
    (hlk : fields.lookup "steps" = some v) (hnl : ∀ items, v ≠ .arr items) :
    decompose_body generate goal =
      (.error ⟨.valueError, "LLM响应中的'steps'不是列表。"⟩, []) := by
  unfold decompose_body
  rw [hgen]
  show (match fields.lookup "steps" with
    | none => ((.error ⟨.valueError, "LLM响应格式不符合预期，缺少'steps'键。"⟩ :
        Except PyExn (DiGraph × Details)), ([] : List String))
    | some steps_data =>
      match steps_data with
      | .arr steps2 =>
        (match processSteps steps2 DiGraph.empty [] [] with
          | (.error e, ws) => (.error e, ws)
          | (.ok (graph, details), ws) =>
            match validate_dag graph with
            | .error e => (.error e, ws)
            | .ok _ => (.ok (graph, details), ws))
      | _ => (.error ⟨.valueError, "LLM响应中的'steps'不是列表。"⟩, [])) = _
  rw [hlk]
  cases v with
  | arr items => exact absurd rfl (hnl items)
  | null => rfl
  | bool b => rfl
  | num n => rfl
  | str str2 => rfl
  | obj fs => rfl

/-- C4 (amended): a malformed response in the sense of the code — raw text
that is not valid JSON, a parsed value that is not a dict containing
`"steps"`, or a `"steps"` that is not a list — raises `ValueError`, a kind
distinct from the `RuntimeError` kind used for unexpected internal
failures.  The original claim also promised `ValueError` for wrong-typed
per-step fields; the code performs no such per-field type validation (see
the counterexample), so that clause is dropped. -/
theorem claim_C4_malformed (generate : GenerateFn) (goal : String) :
    (∀ msg, generate (_build_llm_prompt goal) = .ok (.invalid msg) →
      decompose_task generate goal =
        (.error ⟨.valueError, "LLM返回了无效的JSON格式: " ++ msg⟩, [])) ∧
    (∀ j, generate (_build_llm_prompt goal) = .ok (.jsonOf j) →
      ((∀ fields, j = .obj fields → fields.lookup "steps" = none) ∧
        (∀ fields, j ≠ .obj fields) ∨
        (∃ fields, j = .obj fields ∧ fields.lookup "steps" = none)) →
      decompose_task generate goal =
        (.error ⟨.valueError, "LLM响应格式不符合预期，缺少'steps'键。"⟩, [])) ∧
    (∀ fields v, generate (_build_llm_prompt goal) = .ok (.jsonOf (.obj fields)) →
      fields.lookup "steps" = some v → (∀ items, v ≠ .arr items) →
      decompose_task generate goal =
        (.error ⟨.valueError, "LLM响应中的'steps'不是列表。"⟩, [])) ∧
    ExnKind.valueError ≠ ExnKind.runtimeError := by
  refine ⟨?_, ?_, ?_, by decide⟩
  · intro msg hgen
    have hb : decompose_body generate goal =
        (.error ⟨.valueError, "LLM返回了无效的JSON格式: " ++ msg⟩, []) := by
      unfold decompose_body
      rw [hgen]
      rfl
    rw [decompose_task_of_body_err hb]
    rfl
  · intro j hgen hshape
    rw [decompose_task_of_body_err (decompose_body_no_steps hgen hshape)]
    rfl
  · intro fields v hgen hlk hnl
    rw [decompose_task_of_body_err (decompose_body_steps_not_list hgen hlk hnl)]
    rfl

/-- Witness for C4 (amended) at concrete inputs: an unparseable response,
a dict without `steps`, and a string-valued `steps`. -/
theorem claim_C4_malformed_witness :
    decompose_task (fun _ => .ok (.invalid "Expecting value: line 1 column 1 (char 0)"))
        "测试无效JSON" =
      (.error ⟨.valueError,
        "LLM返回了无效的JSON格式: Expecting value: line 1 column 1 (char 0)"⟩, []) ∧
    decompose_task (fun _ => .ok (json_dumps (.obj [("data", .str "some_data")])))
        "测试缺少steps键" =
      (.error ⟨.valueError, "LLM响应格式不符合预期，缺少'steps'键。"⟩, []) ∧
    decompose_task (fun _ => .ok (json_dumps (.obj [("steps", .str "不是列表")])))
        "测试steps不是列表" =
      (.error ⟨.valueError, "LLM响应中的'steps'不是列表。"⟩, []) := by
  refine ⟨?_, ?_, ?_⟩
  · exact (claim_C4_malformed _ _).1 "Expecting value: line 1 column 1 (char 0)" rfl
  · exact (claim_C4_malformed _ _).2.1 _ rfl
      (Or.inr ⟨[("data", .str "some_data")], rfl, rfl⟩)
  · exact (claim_C4_malformed _ _).2.2.1 [("steps", .str "不是列表")]
      (.str "不是列表") rfl rfl (fun items h => by cases h)

/-- Counterexample to C4 as frozen: the claim includes \"a step field has
the wrong type (for example `dependencies` or `instructions` not being an
array of strings)\" among the malformed responses that must raise
`ValueError`; the code does not validate those.  A step whose
`instructions` is the number 5 raises nothing — decomposition succeeds and
stores the number — and a non-iterable `dependencies` raises `TypeError`,
surfaced as the internal-category `RuntimeError`, not `ValueError`. -/
theorem claim_C4_counterexample :
    (decompose_task (fun _ => .ok (json_dumps (.obj [("steps", .arr
        [.obj [("id", .str "a"), ("description", .str "b"),
               ("instructions", .num 5)]])]))) "目标").1 =
      .ok (⟨[(.str "a", some (.str "b", .num 5))], []⟩,
           [(.str "a", ⟨.str "b", .num 5, .arr []⟩)]) ∧
    (decompose_task (fun _ => .ok (json_dumps (.obj [("steps", .arr
        [.obj [("id", .str "a"), ("description", .str "b"),
               ("dependencies", .num 5)]])]))) "目标").1 =
      .error ⟨.runtimeError, "任务分解失败: object is not iterable"⟩ := by
  constructor
  · rfl
  · rfl

/-- C9: against the default deterministic mock client, the goal
`分解一个简单的任务` decomposes into exactly the nodes `step1`, `step2`
with the single edge `step1 → step2`, and the goal `循环依赖` raises the
cycle `ValueError`. -/
theorem claim_C9_mock_scenarios :
    (decompose_task (MockLLMClient.generate ⟨none, false⟩) "分解一个简单的任务").1 =
      .ok (⟨[(.str "step1", some (.str "第一步", .arr [])),
             (.str "step2", some (.str "第二步", .arr []))],
            [(.str "step1", .str "step2")]⟩,
           [(.str "step1", ⟨.str "第一步", .arr [], .arr []⟩),
            (.str "step2", ⟨.str "第二步", .arr [], .arr [.str "step1"]⟩)]) ∧
    (decompose_task (MockLLMClient.generate ⟨none, false⟩) "循环依赖").1 =
      .error ⟨.valueError,
        "图验证失败: 检测到循环依赖: [('stepB', 'stepA'), ('stepA', 'stepB')]"⟩ := by
  constructor
  · rfl
  · rfl

/-- C3: a step object whose `id` or `description` is missing or empty
aborts the whole decomposition at that step with a `ValueError` whose
message names the offending step; the error is the entire outcome — no
graph or detail map, not even a partial one from the steps already
processed, is returned. -/
theorem claim_C3_missing_fields (generate : GenerateFn) (goal : String)
    (fields : List (String × Json)) (pre post : List Json)
    (bfields : List (String × Json))
    (hgen : generate (_build_llm_prompt goal) = .ok (.jsonOf (.obj fields)))
    (hsteps : fields.lookup "steps" = some (.arr (pre ++ .obj bfields :: post)))
    (hpre : ∃ G1 D1 W1, processSteps pre DiGraph.empty [] [] = (.ok (G1, D1), W1))
    (hbad : (bfields.lookup "id" = none ∨ bfields.lookup "id" = some (.str "")) ∨
            (bfields.lookup "description" = none ∨
             bfields.lookup "description" = some (.str ""))) :
    ∃ W, decompose_task generate goal =
      (.error (missingFieldError (.obj bfields)), W) := by
  obtain ⟨G1, D1, W1, hrun1⟩ := hpre
  have hfull : processSteps (pre ++ .obj bfields :: post) DiGraph.empty [] [] =
      (.error (missingFieldError (.obj bfields)), W1) := by
    rw [processSteps_append_ok hrun1]
    exact processSteps_cons_err (processStep_bad hbad)
  have hb : decompose_body generate goal =
      (.error (missingFieldError (.obj bfields)), W1) := by
    rw [decompose_body_reduce hgen hsteps, hfull]
  refine ⟨W1, ?_⟩
  rw [decompose_task_of_body_err hb]
  rfl

/-- Witness for C3: the response `{"steps": [{"id": "step1"}]}` — the step
lacks `description` — aborts with the `ValueError` naming that step. -/
theorem claim_C3_missing_fields_witness :
    ∃ W, decompose_task (fun _ => .ok (json_dumps
        (.obj [("steps", .arr [.obj [("id", .str "step1")]])])))
        "测试缺少id或description" =
      (.error (missingFieldError (.obj [("id", .str "step1")])), W) :=
  claim_C3_missing_fields _ _ [("steps", .arr [.obj [("id", .str "step1")]])]
    [] [] [("id", .str "step1")] rfl rfl ⟨DiGraph.empty, [], [], rfl⟩
    (Or.inr (Or.inl rfl))

/-- C1: for a response that is a JSON object whose `steps` is an array of
step objects with unique non-empty ids, non-empty descriptions,
dependencies referencing step ids, and acyclic dependencies,
`decompose_task` returns a graph whose node set equals the step-id set and
whose edge set equals the union of the `(dep, id)` pairs, together with a
detail map keyed by step id holding each step's description, instructions
and dependencies. -/
theorem claim_C1_decompose (generate : GenerateFn) (goal : String)
    (fields : List (String × Json)) (steps : List Json) (sspecs : List SStep)
    (hgen : generate (_build_llm_prompt goal) = .ok (.jsonOf (.obj fields)))
    (hsteps : fields.lookup "steps" = some (.arr steps))
    (hrep : List.Forall₂ RepStep steps sspecs)
    (huniq : (sspecs.map SStep.id).Nodup)
    (hdeps : ∀ s ∈ sspecs, ∀ d ∈ s.dependencies, d ∈ sspecs.map SStep.id)
    (hacyc : ∀ c, ¬ IsCycleIn (sstepEdges sspecs) c) :
    ∃ G W, decompose_task generate goal =
      (.ok (G, sspecs.map (fun s => (Json.str s.id, mkDetail s))), W) ∧
      (∀ n, n ∈ G.nodeIds ↔ ∃ s ∈ sspecs, n = .str s.id) ∧
      (∀ e, e ∈ G.edges ↔ ∃ s ∈ sspecs, ∃ d ∈ s.dependencies,
        e = (.str d, .str s.id)) := by
  obtain ⟨G, D, W, hrun, hE, hN⟩ := processSteps_spec hrep DiGraph.empty [] []
  have hEdges : ∀ e, e ∈ G.edges ↔ e ∈ sstepEdges sspecs := by
    intro e
    rw [hE e]
    constructor
    · rintro (he | he)
      · exact absurd he (by simp [DiGraph.empty])
      · exact he
    · exact Or.inr
  have hDeq : D = sspecs.map (fun s => (Json.str s.id, mkDetail s)) := by
    have h := processSteps_details hrep DiGraph.empty [] [] huniq
      (fun t _ => rfl) hrun
    simpa using h
  have hval : validate_dag G = .ok true :=
    validate_dag_ok (acyclic_of_edges hEdges hacyc)
  have hb : decompose_body generate goal = (.ok (G, D), W) := by
    rw [decompose_body_reduce hgen hsteps, hrun]
    show (match validate_dag G with
      | .error e => ((.error e : Except PyExn (DiGraph × Details)), W)
      | .ok _ => (.ok (G, D), W)) = _
    rw [hval]
  refine ⟨G, W, ?_, ?_, ?_⟩
  · rw [← hDeq]
    exact decompose_task_of_body_ok hb
  · intro n
    rw [hN n]
    constructor
    · rintro (hn | h | ⟨t, ht, d, hd, rfl⟩)
      · exact absurd hn (by simp [DiGraph.empty, DiGraph.nodeIds])
      · exact h
      · obtain ⟨t2, ht2, hid⟩ := List.mem_map.mp (hdeps t ht d hd)
        exact ⟨t2, ht2, by rw [hid]⟩
    · intro h
      exact Or.inr (Or.inl h)
  · intro e
    rw [hEdges e, mem_sstepEdges]

/-- Witness for C1: a concrete two-step response decomposes into exactly
its step-id set, detail map and single dependency edge. -/
theorem claim_C1_decompose_witness :
    ∃ G W, decompose_task (fun _ => .ok (json_dumps (.obj [("steps", .arr
        [.obj [("id", .str "s1"), ("description", .str "第一"),
               ("dependencies", .arr []), ("instructions", .arr [])],
         .obj [("id", .str "s2"), ("description", .str "第二"),
               ("dependencies", .arr [.str "s1"]),
               ("instructions", .arr [])]])]))) "目标" =
      (.ok (G, ([⟨"s1", "第一", [], []⟩, ⟨"s2", "第二", ["s1"], []⟩] :
          List SStep).map (fun s => (Json.str s.id, mkDetail s))), W) ∧
      (∀ n, n ∈ G.nodeIds ↔ ∃ s ∈ ([⟨"s1", "第一", [], []⟩,
        ⟨"s2", "第二", ["s1"], []⟩] : List SStep), n = .str s.id) ∧
      (∀ e, e ∈ G.edges ↔ ∃ s ∈ ([⟨"s1", "第一", [], []⟩,
        ⟨"s2", "第二", ["s1"], []⟩] : List SStep), ∃ d ∈ s.dependencies,
        e = (.str d, .str s.id)) := by
  refine claim_C1_decompose _ _ _ _ _ rfl rfl ?_ ?_ ?_ ?_
  · exact List.Forall₂.cons
      ⟨_, rfl, rfl, by decide, rfl, by decide, Or.inl rfl, Or.inl rfl⟩
      (List.Forall₂.cons
        ⟨_, rfl, rfl, by decide, rfl, by decide, Or.inl rfl, Or.inl rfl⟩
        List.Forall₂.nil)
  · decide
  · decide
  · exact edgesAcyclic_spec (by decide)

/-- C10: overwriting the node of a duplicate step id never removes edges
added earlier: for every well-formed response — duplicate ids included —
the returned graph's edge set is exactly the union over every occurrence
of every step, overwritten earlier occurrences included, of its
`(dep, id)` pairs (`sstepEdges` ranges over all occurrences); last write
wins only for node attributes and detail entries, never for edges. -/
theorem claim_C10_edges_union (generate : GenerateFn) (goal : String)
    (fields : List (String × Json)) (steps : List Json) (sspecs : List SStep)
    (hgen : generate (_build_llm_prompt goal) = .ok (.jsonOf (.obj fields)))
    (hsteps : fields.lookup "steps" = some (.arr steps))
    (hrep : List.Forall₂ RepStep steps sspecs)
    (hacyc : ∀ c, ¬ IsCycleIn (sstepEdges sspecs) c) :
    ∃ G D W, decompose_task generate goal = (.ok (G, D), W) ∧
      ∀ e, e ∈ G.edges ↔ ∃ s ∈ sspecs, ∃ d ∈ s.dependencies,
        e = (.str d, .str s.id) := by
  obtain ⟨G, D, W, hrun, hE, _⟩ := processSteps_spec hrep DiGraph.empty [] []
  have hEdges : ∀ e, e ∈ G.edges ↔ e ∈ sstepEdges sspecs := by
    intro e
    rw [hE e]
    constructor
    · rintro (he | he)
      · exact absurd he (by simp [DiGraph.empty])
      · exact he
    · exact Or.inr
  have hval : validate_dag G = .ok true :=
    validate_dag_ok (acyclic_of_edges hEdges hacyc)
  have hb : decompose_body generate goal = (.ok (G, D), W) := by
    rw [decompose_body_reduce hgen hsteps, hrun]
    show (match validate_dag G with
      | .error e => ((.error e : Except PyExn (DiGraph × Details)), W)
      | .ok _ => (.ok (G, D), W)) = _
    rw [hval]
  refine ⟨G, D, W, decompose_task_of_body_ok hb, ?_⟩
  intro e
  rw [hEdges e, mem_sstepEdges]

/-- Witness for C10: two steps share the id `a`; the final edge set keeps
the first occurrence's edge `(b, a)` alongside the second's `(c, a)`. -/
theorem claim_C10_edges_union_witness :
    ∃ G D W, decompose_task (fun _ => .ok (json_dumps (.obj [("steps", .arr
        [.obj [("id", .str "a"), ("description", .str "一"),
               ("dependencies", .arr [.str "b"])],
         .obj [("id", .str "a"), ("description", .str "二"),
               ("dependencies", .arr [.str "c"])]])]))) "目标" =
      (.ok (G, D), W) ∧
      ∀ e, e ∈ G.edges ↔ ∃ s ∈ ([⟨"a", "一", ["b"], []⟩,
        ⟨"a", "二", ["c"], []⟩] : List SStep), ∃ d ∈ s.dependencies,
        e = (.str d, .str s.id) := by
  refine claim_C10_edges_union _ _ _ _
    [⟨"a", "一", ["b"], []⟩, ⟨"a", "二", ["c"], []⟩] rfl rfl ?_ ?_
  · exact List.Forall₂.cons
      ⟨_, rfl, rfl, by decide, rfl, by decide, Or.inl rfl, Or.inr ⟨rfl, rfl⟩⟩
      (List.Forall₂.cons
        ⟨_, rfl, rfl, by decide, rfl, by decide, Or.inl rfl, Or.inr ⟨rfl, rfl⟩⟩
        List.Forall₂.nil)
  · exact edgesAcyclic_spec (by decide)

theorem decompose_task_snd (generate : GenerateFn) (goal : String) :
    (decompose_task generate goal).2 = (decompose_body generate goal).2 := by
  unfold decompose_task
  rcases decompose_body generate goal with ⟨r, ws⟩
  cases r <;> rfl

/-- C5: a dependency `d` of a step `s` that is not a key of the step
detail map at the moment its edge is created — every forward reference to
a later step, and every id never defined at all — makes `decompose_task`
emit a non-fatal warning while the edge `(d, s.id)` is still added; a
never-defined `d` produces a node with no attributes (a phantom node)
rather than a failure; and decomposition completes normally provided the
resulting dependency graph is acyclic. -/
theorem claim_C5_unknown_dependency (generate : GenerateFn) (goal : String)
    (fields : List (String × Json)) (pre : List Json) (j : Json)
    (post : List Json) (spre : List SStep) (s : SStep) (spost : List SStep)
    (d : String)
    (hgen : generate (_build_llm_prompt goal) = .ok (.jsonOf (.obj fields)))
    (hsteps : fields.lookup "steps" = some (.arr (pre ++ j :: post)))
    (hpre : List.Forall₂ RepStep pre spre)
    (hj : RepStep j s)
    (hpost : List.Forall₂ RepStep post spost)
    (hd : d ∈ s.dependencies)
    (hnotpre : d ∉ spre.map SStep.id)
    (hnotself : d ≠ s.id) :
    unknownDepWarning (.str s.id) (.str d) ∈ (decompose_task generate goal).2 ∧
    (∀ G D W, decompose_task generate goal = (.ok (G, D), W) →
      ((.str d, .str s.id) ∈ G.edges ∧
       (d ∉ (spre ++ s :: spost).map SStep.id →
         G.nodeAttr (.str d) = some none))) ∧
    ((∀ c, ¬ IsCycleIn (sstepEdges (spre ++ s :: spost)) c) →
      ∃ G D W, decompose_task generate goal = (.ok (G, D), W)) := by
  have hrep_full : List.Forall₂ RepStep (pre ++ j :: post)
      (spre ++ s :: spost) :=
    List.rel_append hpre (List.Forall₂.cons hj hpost)
  obtain ⟨G, D, W, hrun, hE, hN⟩ := processSteps_spec hrep_full
    DiGraph.empty [] []
  obtain ⟨G1, D1, W1, hrun1, _, _⟩ := processSteps_spec hpre
    DiGraph.empty [] []
  obtain ⟨G2, W2, hps2, _, _, _, _, _, hW2⟩ :=
    @processStep_spec G1 D1 W1 j s hj
  have hkeys := processSteps_detail_keys hpre DiGraph.empty [] [] hrun1
  have hD1 : dictHasKey D1 (.str d) = false := by
    rw [← Bool.not_eq_true, hkeys (.str d)]
    rintro (hk | ⟨t, ht, hdt⟩)
    · exact absurd hk (by simp [dictHasKey])
    · refine hnotpre ?_
      have : d = t.id := by injection hdt
      rw [this]
      exact List.mem_map.mpr ⟨t, ht, rfl⟩
  have hD2 : dictHasKey (dictInsert D1 (.str s.id) (mkDetail s))
      (.str d) = false := by
    rw [← Bool.not_eq_true, dictHasKey_insert]
    rintro (hk | hk)
    · rw [hD1] at hk
      exact Bool.false_ne_true hk
    · exact hnotself (by injection hk)
  have hwarn2 : unknownDepWarning (.str s.id) (.str d) ∈ W2 :=
    (hW2 _).mpr (Or.inr ⟨d, hd, hD2, rfl⟩)
  have hchain : processSteps (pre ++ j :: post) DiGraph.empty [] [] =
      processSteps post G2 (dictInsert D1 (.str s.id) (mkDetail s)) W2 := by
    rw [processSteps_append_ok hrun1, processSteps_cons_ok hps2]
  have hrunpost : processSteps post G2
      (dictInsert D1 (.str s.id) (mkDetail s)) W2 = (.ok (G, D), W) := by
    rw [← hchain]
    exact hrun
  have hwarnW : unknownDepWarning (.str s.id) (.str d) ∈ W := by
    have hmono := processSteps_warn_mono post G2
      (dictInsert D1 (.str s.id) (mkDetail s)) W2 _ hwarn2
    rw [hrunpost] at hmono
    exact hmono
  have hsmem : s ∈ spre ++ s :: spost :=
    List.mem_append.mpr (Or.inr (List.mem_cons_self s spost))
  have hbr := decompose_body_reduce hgen hsteps
  rw [hrun] at hbr
  have hbr2 : decompose_body generate goal =
      (match validate_dag G with
        | .error e => ((.error e : Except PyExn (DiGraph × Details)), W)
        | .ok _ => (.ok (G, D), W)) := hbr
  refine ⟨?_, ?_, ?_⟩
  · rw [decompose_task_snd]
    have hsnd : (decompose_body generate goal).2 = W := by
      rw [hbr2]
      cases validate_dag G with
      | error e => rfl
      | ok b => rfl
    rw [hsnd]
    exact hwarnW
  · intro G' D' W' hok
    cases hval : validate_dag G with
    | error e =>
      rw [hval] at hbr2
      rw [decompose_task_of_body_err hbr2] at hok
      simp at hok
    | ok b =>
      rw [hval] at hbr2
      rw [decompose_task_of_body_ok hbr2] at hok
      simp only [Prod.mk.injEq, Except.ok.injEq] at hok
      obtain ⟨⟨rfl, rfl⟩, rfl⟩ := hok
      constructor
      · rw [hE]
        exact Or.inr (mem_sstepEdges.mpr ⟨s, hsmem, d, hd, rfl⟩)
      · intro hnever
        have hpres : Json.str d ∈ G.nodeIds :=
          (hN _).mpr (Or.inr (Or.inr ⟨s, hsmem, d, hd, rfl⟩))
        obtain ⟨a0, ha0⟩ := nodeAttr_isSome_of_mem hpres
        cases a0 with
        | none => exact ha0
        | some attrs =>
          exfalso
          rcases processSteps_attr_inv hrep_full DiGraph.empty [] []
              hrun (Json.str d) attrs ha0 with ⟨t, ht, hdt⟩ | hempty
          · refine hnever ?_
            have : d = t.id := by injection hdt
            rw [this]
            exact List.mem_map.mpr ⟨t, ht, rfl⟩
          · simp [DiGraph.empty, DiGraph.nodeAttr] at hempty
  · intro hacyc
    have hEdges : ∀ e, e ∈ G.edges ↔ e ∈ sstepEdges (spre ++ s :: spost) := by
      intro e
      rw [hE e]
      constructor
      · rintro (he | he)
        · exact absurd he (by simp [DiGraph.empty])
        · exact he
      · exact Or.inr
    have hval : validate_dag G = .ok true :=
      validate_dag_ok (acyclic_of_edges hEdges hacyc)
    rw [hval] at hbr2
    exact ⟨G, D, W, decompose_task_of_body_ok hbr2⟩

/-- Witness for C5: the single step `s1` depends on the never-defined id
`ghost`: the warning is emitted, the edge `(ghost, s1)` is added, `ghost`
becomes a phantom node without attributes, and decomposition succeeds. -/
theorem claim_C5_unknown_dependency_witness :
    unknownDepWarning (.str "s1") (.str "ghost") ∈
      (decompose_task (fun _ => .ok (json_dumps (.obj [("steps", .arr
        [.obj [("id", .str "s1"), ("description", .str "第一"),
               ("dependencies", .arr [.str "ghost"])]])]))) "目标").2 ∧
    (∀ G D W, decompose_task (fun _ => .ok (json_dumps (.obj [("steps", .arr
        [.obj [("id", .str "s1"), ("description", .str "第一"),
               ("dependencies", .arr [.str "ghost"])]])]))) "目标" =
        (.ok (G, D), W) →
      ((.str "ghost", .str "s1") ∈ G.edges ∧
       ("ghost" ∉ (([] : List SStep) ++ (⟨"s1", "第一", ["ghost"], []⟩ : SStep) ::
           ([] : List SStep)).map SStep.id →
         G.nodeAttr (.str "ghost") = some none))) ∧
    ((∀ c, ¬ IsCycleIn (sstepEdges (([] : List SStep) ++
        (⟨"s1", "第一", ["ghost"], []⟩ : SStep) :: ([] : List SStep))) c) →
      ∃ G D W, decompose_task (fun _ => .ok (json_dumps (.obj [("steps", .arr
        [.obj [("id", .str "s1"), ("description", .str "第一"),
               ("dependencies", .arr [.str "ghost"])]])]))) "目标" =
        (.ok (G, D), W)) :=
  claim_C5_unknown_dependency _ _
    [("steps", .arr [.obj [("id", .str "s1"), ("description", .str "第一"),
      ("dependencies", .arr [.str "ghost"])]])]
    [] (.obj [("id", .str "s1"), ("description", .str "第一"),
      ("dependencies", .arr [.str "ghost"])]) []
    [] ⟨"s1", "第一", ["ghost"], []⟩ [] "ghost" rfl rfl
    List.Forall₂.nil
    ⟨_, rfl, rfl, by decide, rfl, by decide, Or.inl rfl, Or.inr ⟨rfl, rfl⟩⟩
    List.Forall₂.nil (by decide) (by decide) (by decide)

/-- C6: when two steps share an id, the later one overwrites the earlier:
in the returned graph the node carries the last occurrence's `description`
and `instructions`, and the detail map holds the last occurrence's record
(last write wins); the duplicate raises no error — the run succeeds
whenever the dependency graph is acyclic. -/
theorem claim_C6_duplicate_ids (generate : GenerateFn) (goal : String)
    (fields : List (String × Json)) (pre mid post : List Json) (j1 j2 : Json)
    (spre smid spost : List SStep) (s1 s2 : SStep)
    (hgen : generate (_build_llm_prompt goal) = .ok (.jsonOf (.obj fields)))
    (hsteps : fields.lookup "steps" =
      some (.arr (pre ++ j1 :: (mid ++ j2 :: post))))
    (hpre : List.Forall₂ RepStep pre spre)
    (h1 : RepStep j1 s1)
    (hmid : List.Forall₂ RepStep mid smid)
    (h2 : RepStep j2 s2)
    (hpost : List.Forall₂ RepStep post spost)
    (hdup : s1.id = s2.id)
    (hlast : s2.id ∉ spost.map SStep.id)
    (hacyc : ∀ c, ¬ IsCycleIn
      (sstepEdges (spre ++ s1 :: (smid ++ s2 :: spost))) c) :
    ∃ G D W, decompose_task generate goal = (.ok (G, D), W) ∧
      G.nodeAttr (.str s2.id) =
        some (some (.str s2.description, .arr s2.instructions)) ∧
      dictLookup D (.str s2.id) = some (mkDetail s2) := by
  have hrep_full : List.Forall₂ RepStep (pre ++ j1 :: (mid ++ j2 :: post))
      (spre ++ s1 :: (smid ++ s2 :: spost)) :=
    List.rel_append hpre (List.Forall₂.cons h1
      (List.rel_append hmid (List.Forall₂.cons h2 hpost)))
  obtain ⟨G, D, W, hrun, hE, _⟩ := processSteps_spec hrep_full
    DiGraph.empty [] []
  obtain ⟨G1, D1, W1, hrun1, _, _⟩ := processSteps_spec hpre
    DiGraph.empty [] []
  obtain ⟨G2, W2, hps1, _, _, _, _, _, _⟩ :=
    @processStep_spec G1 D1 W1 j1 s1 h1
  obtain ⟨G3, D3, W3, hrun3, _, _⟩ := processSteps_spec hmid G2
    (dictInsert D1 (.str s1.id) (mkDetail s1)) W2
  obtain ⟨G4, W4, hps2, _, _, hattr4, _, _, _⟩ :=
    @processStep_spec G3 D3 W3 j2 s2 h2
  have hchain : processSteps (pre ++ j1 :: (mid ++ j2 :: post))
      DiGraph.empty [] [] =
      processSteps post G4 (dictInsert D3 (.str s2.id) (mkDetail s2)) W4 := by
    rw [processSteps_append_ok hrun1, processSteps_cons_ok hps1,
      processSteps_append_ok hrun3, processSteps_cons_ok hps2]
  have hrunpost : processSteps post G4
      (dictInsert D3 (.str s2.id) (mkDetail s2)) W4 = (.ok (G, D), W) := by
    rw [← hchain]
    exact hrun
  have hne : ∀ t ∈ spost, Json.str t.id ≠ Json.str s2.id := by
    intro t ht he
    have : t.id = s2.id := by injection he
    exact hlast (this ▸ List.mem_map.mpr ⟨t, ht, rfl⟩)
  obtain ⟨hattrpres, hdictpres⟩ := processSteps_preserve hpost
    (Json.str s2.id) hne G4 (dictInsert D3 (.str s2.id) (mkDetail s2)) W4
    hrunpost
  have hEdges : ∀ e, e ∈ G.edges ↔
      e ∈ sstepEdges (spre ++ s1 :: (smid ++ s2 :: spost)) := by
    intro e
    rw [hE e]
    constructor
    · rintro (he | he)
      · exact absurd he (by simp [DiGraph.empty])
      · exact he
    · exact Or.inr
  have hval : validate_dag G = .ok true :=
    validate_dag_ok (acyclic_of_edges hEdges hacyc)
  have hb : decompose_body generate goal = (.ok (G, D), W) := by
    rw [decompose_body_reduce hgen hsteps, hrun]
    show (match validate_dag G with
      | .error e => ((.error e : Except PyExn (DiGraph × Details)), W)
      | .ok _ => (.ok (G, D), W)) = _
    rw [hval]
  refine ⟨G, D, W, decompose_task_of_body_ok hb, ?_, ?_⟩
  · exact hattrpres _ hattr4
  · rw [hdictpres, dictInsert_lookup_self]

/-- Witness for C6: two steps both named `a`; the final node and detail
entry carry the second step's description `二` and empty instructions. -/
theorem claim_C6_duplicate_ids_witness :
    ∃ G D W, decompose_task (fun _ => .ok (json_dumps (.obj [("steps", .arr
        [.obj [("id", .str "a"), ("description", .str "一"),
               ("instructions", .arr [.str "i1"])],
         .obj [("id", .str "a"), ("description", .str "二")]])]))) "目标" =
      (.ok (G, D), W) ∧
      G.nodeAttr (.str (SStep.id ⟨"a", "二", [], []⟩)) =
        some (some (.str "二", .arr [])) ∧
      dictLookup D (.str (SStep.id ⟨"a", "二", [], []⟩)) =
        some (mkDetail ⟨"a", "二", [], []⟩) :=
  claim_C6_duplicate_ids _ _
    [("steps", .arr
      [.obj [("id", .str "a"), ("description", .str "一"),
             ("instructions", .arr [.str "i1"])],
       .obj [("id", .str "a"), ("description", .str "二")]])]
    [] [] []
    (.obj [("id", .str "a"), ("description", .str "一"),
           ("instructions", .arr [.str "i1"])])
    (.obj [("id", .str "a"), ("description", .str "二")])
    [] [] [] ⟨"a", "一", [], [.str "i1"]⟩ ⟨"a", "二", [], []⟩
    rfl rfl List.Forall₂.nil
    ⟨_, rfl, rfl, by decide, rfl, by decide, Or.inr ⟨rfl, rfl⟩, Or.inl rfl⟩
    List.Forall₂.nil
    ⟨_, rfl, rfl, by decide, rfl, by decide, Or.inr ⟨rfl, rfl⟩,
      Or.inr ⟨rfl, rfl⟩⟩
    List.Forall₂.nil rfl (by decide) (edgesAcyclic_spec (by decide))

end PrimalStep
